import Mathlib

/-!
# go-hostinfo: GPU telemetry parsing

A shallow embedding of `main.go` (the `nvidia-smi` output parsers `parseVersion`,
`parseProc`, `atoi`, the row loop of `queryGPU`, and `collect`) together with the parts of
the Go standard library these functions call (`strings`, `strconv`, `encoding/csv`,
and the `omitempty` rule of `encoding/json`).

Texts are sequences of Unicode code points (`List Char`), i.e. Go strings holding valid
UTF-8.  The Go `int` is the 64-bit one.
-/

set_option autoImplicit false
set_option maxRecDepth 20000

namespace GoHostinfo

/-- A Go string, as its sequence of code points. -/
abbrev Str := List Char

/-! ## `unicode` and `strings` -/

/-- Go `unicode.IsSpace`: the Latin-1 spaces and the other `White_Space` code points. -/
def isSpace (c : Char) : Bool :=
  let n := c.toNat
  n == 0x09 || n == 0x0A || n == 0x0B || n == 0x0C || n == 0x0D || n == 0x20 ||
  n == 0x85 || n == 0xA0 || n == 0x1680 || (0x2000 ≤ n && n ≤ 0x200A) ||
  n == 0x2028 || n == 0x2029 || n == 0x202F || n == 0x205F || n == 0x3000

/-- Go `strings.TrimSpace`: leading and trailing white space removed. -/
def TrimSpace (s : Str) : Str :=
  ((s.dropWhile isSpace).reverse.dropWhile isSpace).reverse

/-- Go `strings.HasPrefix`. -/
def HasPrefix (s p : Str) : Bool :=
  match p, s with
  | [], _ => true
  | _ :: _, [] => false
  | a :: p1, b :: s1 => a == b && HasPrefix s1 p1

/-- Go `strings.Contains`: `sub` occurs somewhere in `s`. -/
def Contains (s sub : Str) : Bool :=
  match s with
  | [] => HasPrefix [] sub
  | c :: t => HasPrefix (c :: t) sub || Contains t sub

/-- Go `strings.Split(s, sep)` for a one-character separator; `cur` is the
piece being read. -/
def splitAux (sep : Char) : Str → Str → List Str
  | [], cur => [cur]
  | c :: t, cur => if c = sep then cur :: splitAux sep t [] else splitAux sep t (cur ++ [c])

/-- Go `strings.Split(s, "\n")` and the like. -/
def Split (s : Str) (sep : Char) : List Str := splitAux sep s []

/-- The scan of Go `strings.Fields`; `cur` is the token being read. -/
def fieldsAux : Str → Str → List Str
  | [], cur => if cur.isEmpty then [] else [cur]
  | c :: t, cur =>
    if isSpace c then
      (if cur.isEmpty then fieldsAux t [] else cur :: fieldsAux t [])
    else fieldsAux t (cur ++ [c])

/-- Go `strings.Fields`: the maximal runs of non-space characters. -/
def Fields (s : Str) : List Str := fieldsAux s []

/-! ## `strconv` -/

/-- The two failures of `strconv` (`strconv.ErrSyntax`, `strconv.ErrRange`). -/
inductive NumError
  | ErrSyntax
  | ErrRange
  deriving DecidableEq

/-- Size in bits of the Go `int` (`strconv.IntSize`). -/
def intSize : Nat := 64

/-- Number of bytes of the UTF-8 encoding of a code point. -/
def utf8Len (c : Char) : Nat :=
  if c.toNat < 0x80 then 1 else if c.toNat < 0x800 then 2 else if c.toNat < 0x10000 then 3 else 4

/-- Go `len(s)`: the length in bytes. -/
def byteLen (s : Str) : Nat := (s.map utf8Len).sum

/-- The loop of `strconv.ParseUint(s, 10, 64)` over the bytes of `s`, from the
accumulator `n`.  A byte that is not a decimal digit is a syntax error (the first byte of
a non-ASCII character is one); an overflow returns the largest value at once, without
looking at the rest. -/
def parseUintLoop : Str → Nat → Nat × Option NumError
  | [], n => (n, none)
  | c :: t, n =>
    if 0x30 ≤ c.toNat ∧ c.toNat ≤ 0x39 then
      let d := c.toNat - 0x30
      let cutoff := (2 ^ 64 - 1) / 10 + 1
      let maxVal := 2 ^ 64 - 1
      if n ≥ cutoff then (maxVal, some .ErrRange)
      else
        let n10 := n * 10 % 2 ^ 64
        let n1 := (n10 + d) % 2 ^ 64
        if n1 < n10 ∨ n1 > maxVal then (maxVal, some .ErrRange)
        else parseUintLoop t n1
    else (0, some .ErrSyntax)

/-- Go `strconv.ParseUint(s, 10, 0)`. -/
def ParseUint (s : Str) : Nat × Option NumError :=
  if s.isEmpty then (0, some .ErrSyntax) else parseUintLoop s 0

/-- Go `strconv.ParseInt(s, 10, 0)`: a sign, then `ParseUint`; a value out of the
range of `int` is replaced by the nearest bound, with `ErrRange`. -/
def ParseInt (s : Str) : Int × Option NumError :=
  match s with
  | [] => (0, some .ErrSyntax)
  | c :: t =>
    let neg := c = '-'
    let s1 := if c = '+' ∨ c = '-' then t else c :: t
    match ParseUint s1 with
    | (_, some .ErrSyntax) => (0, some .ErrSyntax)
    | (un, _) =>
      let cutoff : Nat := 2 ^ (intSize - 1)
      if ¬ neg ∧ un ≥ cutoff then ((cutoff : Int) - 1, some .ErrRange)
      else if neg ∧ un > cutoff then (-(cutoff : Int), some .ErrRange)
      else (if neg then -(un : Int) else (un : Int), none)

/-- The digit loop of the fast path of `strconv.Atoi`; `none` is the syntax error. -/
def atoiFastLoop : Str → Int → Option Int
  | [], n => some n
  | c :: t, n =>
    if 0x30 ≤ c.toNat ∧ c.toNat ≤ 0x39 then atoiFastLoop t (n * 10 + ((c.toNat - 0x30 : Nat) : Int))
    else none

/-- Go `strconv.Atoi`: the fast path for texts of fewer than 19 bytes, `ParseInt`
for the others. -/
def Atoi (s : Str) : Int × Option NumError :=
  let sLen := byteLen s
  if intSize = 64 ∧ 0 < sLen ∧ sLen < 19 then
    match s with
    | [] => (0, some .ErrSyntax)
    | c :: t =>
      let s1 := if c = '-' ∨ c = '+' then t else c :: t
      if (c = '-' ∨ c = '+') ∧ s1.length < 1 then (0, some .ErrSyntax)
      else
        match atoiFastLoop s1 0 with
        | none => (0, some .ErrSyntax)
        | some n => (if c = '-' then -n else n, none)
  else ParseInt s

/-! ## `encoding/csv`

The reader as `main.go` configures it: `Comma = ','`, no comment character,
`LazyQuotes = false`, `TrimLeadingSpace = true`, and `FieldsPerRecord` left at its zero
value, so that the first record read fixes the number of fields the later ones must have.
The loops of the reader take a bound on their number of turns; `none` is the bound
reached, which the bounds used below exclude (`scanRecord_total`, `rows_total`,
`queryGPU_total`). -/

/-- The parse errors of `encoding/csv`. -/
inductive CsvError
  | ErrBareQuote
  | ErrQuote
  | ErrFieldCount
  deriving DecidableEq

/-- Go `lengthNL`: the number of bytes of the trailing `\n`. -/
def lengthNL (b : Str) : Nat := if b.getLast? = some '\n' then 1 else 0

/-- Go `bufio.Reader.ReadSlice('\n')`: the text up to and including the first `\n`
(all of it when there is none), and what follows. -/
def readSlice : Str → Str × Str
  | [] => ([], [])
  | c :: t => if c = '\n' then ([c], t) else ((readSlice t).1.cons c, (readSlice t).2)

/-- In Go `Reader.readLine`: when the end of the input was hit (no `\n` ends the
text read), a trailing `\r` is dropped. -/
def dropFinalCR (raw : Str) : Str :=
  if raw.getLast? ≠ some '\n' ∧ raw.getLast? = some '\r' then raw.dropLast else raw

/-- In Go `Reader.readLine`: a line ending in `\r\n` ends in `\n` instead. -/
def normalizeCRLF (line : Str) : Str :=
  if line.length ≥ 2 ∧ line.get? (line.length - 2) = some '\r' ∧
      line.get? (line.length - 1) = some '\n'
  then line.take (line.length - 2) ++ ['\n'] else line

/-- Go `Reader.readLine`: the next line with its endline, `\r\n` normalised to `\n`,
a `\r` before the end of the input dropped; the flag is `io.EOF` (nothing was read). -/
def readLine (inp : Str) : Str × Bool × Str :=
  let raw := (readSlice inp).1
  let rest := (readSlice inp).2
  if raw.isEmpty then ([], true, rest)
  else (normalizeCRLF (dropFinalCR raw), false, rest)

/-- The first loop of Go `Reader.readRecord`: read lines, skipping the empty ones.
`some none` is `io.EOF`; otherwise the line and the input after it. -/
def skipEmptyLines : Nat → Str → Option (Option (Str × Str))
  | 0, _ => none
  | fuel + 1, inp =>
    let r := readLine inp
    if r.2.1 then some none
    else if r.1.length = lengthNL r.1 then skipEmptyLines fuel r.2.2
    else some (some (r.1, r.2.2))

/-- How the loop over a quoted field ends. -/
inductive QuotedEnd
  /-- A quote then a comma: the field is complete, the record goes on with `line`. -/
  | nextField (field line rest : Str)
  /-- A quote then the end of the line: the field and the record are complete. -/
  | endRecord (field rest : Str)
  /-- A quote followed by something else, or no closing quote: `ErrQuote`. -/
  | errQuote (rest : Str)

/-- The inner loop of Go `Reader.readRecord` on a quoted field: `line` is the text
after the opening quote, `rest` the input after that line, `buf` the field so far. -/
def quotedLoop : Nat → Str → Str → Str → Option QuotedEnd
  | 0, _, _, _ => none
  | fuel + 1, line, rest, buf =>
    match line.span (fun c => c ≠ '"') with
    | (pre, _ :: line1) =>
      match line1 with
      | '"' :: line2 => quotedLoop fuel line2 rest (buf ++ pre ++ ['"'])
      | ',' :: line2 => some (.nextField (buf ++ pre) line2 rest)
      | _ =>
        if lengthNL line1 = line1.length then some (.endRecord (buf ++ pre) rest)
        else some (.errQuote rest)
    | (_, []) =>
      if line.length > 0 then
        let r := readLine rest
        quotedLoop fuel r.1 r.2.2 (buf ++ line)
      else some (.errQuote rest)

/-- The `parseField` loop of Go `Reader.readRecord`: the fields of the record that
starts with `line`, the parse error if any, and the input left for the next record. -/
def parseFieldLoop : Nat → Str → Str → List Str → Option (List Str × Option CsvError × Str)
  | 0, _, _, _ => none
  | fuel + 1, line0, rest, fields =>
    match line0.dropWhile isSpace with
    | '"' :: line1 =>
      match quotedLoop (line1.length + rest.length + 1) line1 rest [] with
      | none => none
      | some (.nextField f l r) => parseFieldLoop fuel l r (fields ++ [f])
      | some (.endRecord f r) => some (fields ++ [f], none, r)
      | some (.errQuote r) => some (fields, some .ErrQuote, r)
    | line =>
      let pre := (line.span (fun c => c ≠ ',')).1
      let post := (line.span (fun c => c ≠ ',')).2
      let field := if post.isEmpty then pre.take (pre.length - lengthNL pre) else pre
      if '"' ∈ field then some (fields, some .ErrBareQuote, rest)
      else
        match post with
        | [] => some (fields ++ [field], none, rest)
        | _ :: l => parseFieldLoop fuel l rest (fields ++ [field])

/-- Go `Reader.readRecord` up to its check of the number of fields: `some none` is
`io.EOF`, otherwise the fields read, the parse error if any, and the input left. -/
def scanRecord (inp : Str) : Option (Option (List Str × Option CsvError × Str)) :=
  match skipEmptyLines (inp.length + 1) inp with
  | none => none
  | some none => some none
  | some (some (line, rest)) =>
    (parseFieldLoop (line.length + rest.length + 1) line rest []).map some

/-- The state of a `csv.Reader`: the input not yet read and `FieldsPerRecord`. -/
structure Reader where
  input : Str
  FieldsPerRecord : Int
  deriving DecidableEq

/-- Go `csv.NewReader`. -/
def NewReader (inp : Str) : Reader := { input := inp, FieldsPerRecord := 0 }

/-- What `Reader.Read` returns as its error. -/
inductive ReadError
  | EOF
  | parse (e : CsvError)
  deriving DecidableEq

/-- The end of Go `Reader.readRecord`: a record of another length than
`FieldsPerRecord` gets `ErrFieldCount` (unless it has an error already); when
`FieldsPerRecord` is 0 it is set to the length of this record. -/
def checkFieldCount (fpr : Int) (fields : List Str) (err : Option CsvError) :
    Option CsvError × Int :=
  if fpr > 0 then
    (if (fields.length : Int) ≠ fpr ∧ err = none then some .ErrFieldCount else err, fpr)
  else if fpr = 0 then (err, (fields.length : Int))
  else (err, fpr)

/-- Go `Reader.Read`: the record, the error, and the reader afterwards. -/
def Reader.Read (r : Reader) : Option (List Str × Option ReadError × Reader) :=
  match scanRecord r.input with
  | none => none
  | some none => some ([], some .EOF, r)
  | some (some (fields, err, rest)) =>
    let c := checkFieldCount r.FieldsPerRecord fields err
    some (fields, c.1.map ReadError.parse, { input := rest, FieldsPerRecord := c.2 })

/-- The loop of Go `Reader.ReadAll`: stop at `io.EOF` with the records read, or at
the first error with that error. -/
def readAllLoop : Nat → Reader → List (List Str) → Option (Except CsvError (List (List Str)))
  | 0, _, _ => none
  | fuel + 1, r, records =>
    match r.Read with
    | none => none
    | some (_, some .EOF, _) => some (.ok records)
    | some (_, some (.parse e), _) => some (.error e)
    | some (record, none, r1) => readAllLoop fuel r1 (records ++ [record])

/-- Go `Reader.ReadAll`. -/
def Reader.ReadAll (r : Reader) : Option (Except CsvError (List (List Str))) :=
  readAllLoop (r.input.length + 1) r []

/-! ## `main.go`: the data structures -/

/-- A Go `float64`, as its 64 bits.  The program only stores and copies these values. -/
structure Float64 where
  bits : Nat
  deriving DecidableEq

/-- A Go slice: `none` is the nil slice, `some xs` a non-nil slice of elements `xs`. -/
abbrev Slice (α : Type) := Option (List α)

/-- The elements of a slice (none for the nil slice). -/
def sliceElems {α : Type} (s : Slice α) : List α := s.getD []

/-- Go `append(s, x)`: never nil. -/
def sliceAppend {α : Type} (s : Slice α) (x : α) : Slice α := some (sliceElems s ++ [x])

/-- `GPUProc` of `main.go`. -/
structure GPUProc where
  PID : Int
  Name : Str
  UsedMB : Int
  GPUUUID : Str
  deriving DecidableEq

/-- `GPUInfo` of `main.go`. -/
structure GPUInfo where
  Index : Int
  UUID : Str
  Name : Str
  Temp : Int
  PowerDrawW : Float64
  PowerLimitW : Float64
  MemTotalMB : Int
  MemUsedMB : Int
  MemFreeMB : Int
  UtilPct : Int
  Processes : Slice GPUProc
  Driver : Str
  Cuda : Str
  deriving DecidableEq

/-- The member names `json.Marshal` writes for a `GPUInfo`, in the order of the struct:
the three members tagged `omitempty` are left out when empty (a slice of length 0, nil or
not; an empty string). -/
def GPUInfo.jsonKeys (g : GPUInfo) : List Str :=
  ["index".toList, "uuid".toList, "name".toList, "temperature_c".toList,
   "power_draw_w".toList, "power_limit_w".toList, "memory_total_mb".toList,
   "memory_used_mb".toList, "memory_free_mb".toList, "util_pct".toList]
  ++ (if (sliceElems g.Processes).length = 0 then [] else ["processes".toList])
  ++ (if g.Driver.length = 0 then [] else ["driver_version".toList])
  ++ (if g.Cuda.length = 0 then [] else ["cuda_version".toList])

/-- `OSInfo` of `main.go`. -/
structure OSInfo where
  Platform : Str
  Family : Str
  Version : Str
  Kernel : Str
  deriving DecidableEq

/-- `CPUInfo` of `main.go`. -/
structure CPUInfo where
  ModelName : Str
  Cores : Int
  Threads : Int
  Mhz : Float64
  LoadPct : Float64
  deriving DecidableEq

/-- `MemInfo` of `main.go`. -/
structure MemInfo where
  Total : Nat
  Used : Nat
  Free : Nat
  deriving DecidableEq

/-- `DiskInfo` of `main.go`. -/
structure DiskInfo where
  Mount : Str
  FsType : Str
  Total : Nat
  Used : Nat
  Free : Nat
  UsedPct : Float64
  deriving DecidableEq

/-- `LoadAverage` of `main.go`. -/
structure LoadAverage where
  Load1 : Float64
  Load5 : Float64
  Load15 : Float64
  deriving DecidableEq

/-- `HostInfo` of `main.go` (the snapshot); `CollectedAt` is a clock reading. -/
structure HostInfo where
  CollectedAt : Nat
  OS : OSInfo
  CPU : CPUInfo
  Memory : MemInfo
  Disk : Slice DiskInfo
  GPU : Slice GPUInfo
  Uptime : Nat
  LoadAvg : LoadAverage
  deriving DecidableEq

/-- The errors `queryGPU` and `collect` return. -/
inductive Error
  /-- An error returned by a collaborator (`exec`, gopsutil), by its number. -/
  | external (id : Nat)
  /-- An error of the csv reader. -/
  | csv (e : CsvError)
  /-- The error `collect` makes: `fmt.Errorf("cpu.Info: %v", err)`. -/
  | cpuInfo (inner : Option Nat)
  deriving DecidableEq

/-! ## `main.go`: `atoi`, `atof`, `parseVersion`, `parseProc` -/

/-- `atoi` of `main.go`: the value `strconv.Atoi` returns for the trimmed text,
its error dropped. -/
def atoi (s : Str) : Int := (Atoi (TrimSpace s)).1

/-- The first test of the loop of `parseVersion`, on the trimmed line. -/
def isDriverLine (ln : Str) : Bool :=
  HasPrefix ln "Driver version".toList || Contains ln "DRIVER version".toList

/-- The second test of the loop of `parseVersion`, on the trimmed line. -/
def isCudaLine (ln : Str) : Bool :=
  HasPrefix ln "CUDA Version".toList || Contains ln "CUDA Version".toList

/-- `parseVersion` of `main.go`, one line of the loop, from the values `st` of
`(driver, cuda)`: `none` is the run-time panic of `f[len(f)-1]` on an empty `f`. -/
def parseVersionLine (st : Str × Str) (ln0 : Str) : Option (Str × Str) :=
  let ln := TrimSpace ln0
  if isDriverLine ln then
    match (Fields ln).getLast? with
    | none => none
    | some tok => some (tok, st.2)
  else if isCudaLine ln then
    match (Fields ln).getLast? with
    | none => none
    | some tok => some (st.1, tok)
  else some st

/-- The loop of `parseVersion` over the lines. -/
def parseVersionLoop : List Str → Str × Str → Option (Str × Str)
  | [], st => some st
  | ln :: rest, st =>
    match parseVersionLine st ln with
    | none => none
    | some st1 => parseVersionLoop rest st1

/-- `parseVersion` of `main.go`: `(driver, cuda)`, or `none` if it panics. -/
def parseVersion (out : Str) : Option (Str × Str) :=
  parseVersionLoop (Split out '\n') ([], [])

/-- `atof` of `main.go`: what `strconv.ParseFloat` returns as its value for the
trimmed text, its error dropped.  `ParseFloat` itself is taken as given. -/
def atof (ParseFloat : Str → Float64) (s : Str) : Float64 := ParseFloat (TrimSpace s)

/-- A Go `map[string][]GPUProc`, as the list of its keys with their values (each key
once). -/
abbrev ProcMap := List (Str × Slice GPUProc)

/-- Go `m[k]` in its two-value form: `none` when `k` is not a key. -/
def mapGet (m : ProcMap) (k : Str) : Option (Slice GPUProc) :=
  match m with
  | [] => none
  | (k1, v) :: t => if k1 = k then some v else mapGet t k

/-- Go `m[k] = v`. -/
def mapSet (m : ProcMap) (k : Str) (v : Slice GPUProc) : ProcMap :=
  match m with
  | [] => [(k, v)]
  | (k1, v1) :: t => if k1 = k then (k, v) :: t else (k1, v1) :: mapSet t k v

/-- The body of the loop of `parseProc` for a record of 5 fields (`rec[i]` is
`rec.getD i []`: the loop reaches it only with `len(rec) == 5`, so the index is in
range). -/
def procOfRecord (rec : List Str) : GPUProc :=
  { GPUUUID := TrimSpace (rec.getD 0 [])
    Name := TrimSpace (rec.getD 3 [])
    PID := atoi (rec.getD 2 [])
    UsedMB := atoi (rec.getD 4 []) }

/-- The last statement of the loop of `parseProc`, `res[uuid] = append(res[uuid], proc)`,
for the record `rec`. -/
def addProc (res : ProcMap) (rec : List Str) : ProcMap :=
  let proc := procOfRecord rec
  let uuid := proc.GPUUUID
  mapSet res uuid (sliceAppend ((mapGet res uuid).getD none) proc)

/-- The loop of `parseProc`: read records until `io.EOF`; skip a record read with
an error or with a number of fields other than 5. -/
def parseProcLoop : Nat → Reader → ProcMap → Option ProcMap
  | 0, _, _ => none
  | fuel + 1, r, res =>
    match r.Read with
    | none => none
    | some (_, some .EOF, _) => some res
    | some (rec, err, r1) =>
      if err ≠ none ∨ rec.length ≠ 5 then parseProcLoop fuel r1 res
      else parseProcLoop fuel r1 (addProc res rec)

/-- `parseProc` of `main.go`; `none` is the bound of the loop reached, which does
not happen (`parseProc_total`). -/
def parseProc (out : Str) : Option ProcMap :=
  if out.length = 0 then some []
  else parseProcLoop (out.length + 1) (NewReader out) []

/-! ## `main.go`: `queryGPU` and `collect` -/

/-- What the commands `queryGPU` runs return. -/
structure GPUEnv where
  /-- The error of `exec.LookPath("nvidia-smi")`. -/
  lookPath : Option Error
  /-- The output of `nvidia-smi --version` (its error is dropped by `queryGPU`). -/
  verOut : Str
  /-- The output and the error of the device query. -/
  mainOut : Str × Option Error
  /-- The output of the process query (its error is dropped by `queryGPU`). -/
  procOut : Str

/-- The `GPUInfo` literal of the row loop of `queryGPU`, for a record of 10 fields
(`rec[i]` is `rec.getD i []`: the loop reaches it only with `len(rec) == 10`). -/
def gpuOfRecord (ParseFloat : Str → Float64) (driver cuda : Str) (rec : List Str) : GPUInfo :=
  { Index := atoi (rec.getD 0 [])
    UUID := TrimSpace (rec.getD 1 [])
    Name := rec.getD 2 []
    Temp := atoi (rec.getD 3 [])
    PowerDrawW := atof ParseFloat (rec.getD 4 [])
    PowerLimitW := atof ParseFloat (rec.getD 5 [])
    MemTotalMB := atoi (rec.getD 6 [])
    MemUsedMB := atoi (rec.getD 7 [])
    MemFreeMB := atoi (rec.getD 8 [])
    UtilPct := atoi (rec.getD 9 [])
    Processes := none
    Driver := driver
    Cuda := cuda }

/-- One turn of the row loop of `queryGPU` on a record of 10 fields: the record
built, with the processes of its UUID when the map has that key. -/
def gpuRow (ParseFloat : Str → Float64) (driver cuda : Str) (procMap : ProcMap)
    (rec : List Str) : GPUInfo :=
  let g := gpuOfRecord ParseFloat driver cuda rec
  match mapGet procMap g.UUID with
  | some procs => { g with Processes := procs }
  | none => g

/-- The row loop of `queryGPU` (`for _, rec := range records`). -/
def gpuLoop (ParseFloat : Str → Float64) (driver cuda : Str) (procMap : ProcMap) :
    List (List Str) → Slice GPUInfo → Slice GPUInfo
  | [], gpus => gpus
  | rec :: rest, gpus =>
    if rec.length ≠ 10 then gpuLoop ParseFloat driver cuda procMap rest gpus
    else gpuLoop ParseFloat driver cuda procMap rest
      (sliceAppend gpus (gpuRow ParseFloat driver cuda procMap rec))

/-- `queryGPU` of `main.go`: the device list and the error; `none` when it does not
return (a panic of `parseVersion`, a loop bound reached). -/
def queryGPU (ParseFloat : Str → Float64) (env : GPUEnv) :
    Option (Slice GPUInfo × Option Error) :=
  if env.lookPath ≠ none then some (none, none)
  else
    match parseVersion env.verOut with
    | none => none
    | some (driver, cuda) =>
      match env.mainOut.2 with
      | some err => some (none, some err)
      | none =>
        match parseProc env.procOut with
        | none => none
        | some procMap =>
          match (NewReader env.mainOut.1).ReadAll with
          | none => none
          | some (.error e) => some (none, some (.csv e))
          | some (.ok records) =>
            some (gpuLoop ParseFloat driver cuda procMap records none, none)

/-- `host.InfoStat` of gopsutil, the members `collect` reads. -/
structure InfoStat where
  Platform : Str
  PlatformFamily : Str
  PlatformVersion : Str
  KernelVersion : Str
  Uptime : Nat

/-- `cpu.InfoStat` of gopsutil, the members `collect` reads. -/
structure CpuStat where
  ModelName : Str
  Cores : Int
  Mhz : Float64

/-- `load.AvgStat` of gopsutil. -/
structure AvgStat where
  Load1 : Float64
  Load5 : Float64
  Load15 : Float64

/-- `mem.VirtualMemoryStat` of gopsutil, the members `collect` reads. -/
structure VirtualMemoryStat where
  Total : Nat
  Used : Nat
  Free : Nat

/-- `disk.PartitionStat` of gopsutil, the members `collect` reads. -/
structure PartitionStat where
  Mountpoint : Str
  Fstype : Str

/-- `disk.UsageStat` of gopsutil, the members `collect` reads. -/
structure UsageStat where
  Total : Nat
  Used : Nat
  Free : Nat
  UsedPercent : Float64

/-- What the collaborators of one pass of `collect` return.  A pointer result is an
`Option` (`none` is nil). -/
structure Env where
  /-- The reading of `time.Now()`. -/
  now : Nat
  /-- The result of `host.Info()`. -/
  hostInfo : Option InfoStat × Option Error
  /-- The result of `cpu.Info()`; its error by number. -/
  cpuInfo : List CpuStat × Option Nat
  /-- The value of `cpu.Counts(true)`. -/
  cpuCounts : Int
  /-- The value of `cpu.Percent(0, false)`. -/
  cpuPercent : List Float64
  /-- The value of `load.Avg()`. -/
  loadAvg : Option AvgStat
  /-- The value of `mem.VirtualMemory()`. -/
  virtualMemory : Option VirtualMemoryStat
  /-- The value of `disk.Partitions(false)`. -/
  partitions : List PartitionStat
  /-- The result of `disk.Usage` for a mount point. -/
  diskUsage : Str → Option UsageStat × Option Error
  /-- What the `nvidia-smi` commands return. -/
  gpu : GPUEnv

/-- The loop of `collect` over the partitions; `none` is the dereference of a nil
`*UsageStat`. -/
def diskLoop (usage : Str → Option UsageStat × Option Error) :
    List PartitionStat → Slice DiskInfo → Option (Slice DiskInfo)
  | [], disks => some disks
  | p :: rest, disks =>
    if p.Fstype.length = 0 then diskLoop usage rest disks
    else
      match usage p.Mountpoint with
      | (_, some _) => diskLoop usage rest disks
      | (none, none) => none
      | (some du, none) =>
        diskLoop usage rest (sliceAppend disks
          { Mount := p.Mountpoint, FsType := p.Fstype, Total := du.Total, Used := du.Used,
            Free := du.Free, UsedPct := du.UsedPercent })

/-- `collect` of `main.go`: the snapshot and the error; `none` when it does not
return (the dereference of a nil pointer, or `queryGPU` not returning). -/
def collect (ParseFloat : Str → Float64) (env : Env) : Option (Option HostInfo × Option Error) :=
  match env.hostInfo with
  | (_, some err) => some (none, some err)
  | (none, none) => none
  | (some hInfo, none) =>
    let osInfo : OSInfo :=
      { Platform := hInfo.Platform, Family := hInfo.PlatformFamily,
        Version := hInfo.PlatformVersion, Kernel := hInfo.KernelVersion }
    match env.cpuInfo with
    | (_, some e) => some (none, some (.cpuInfo (some e)))
    | ([], none) => some (none, some (.cpuInfo none))
    | (c0 :: _, none) =>
      let cpuInfo : CPUInfo :=
        { ModelName := c0.ModelName, Cores := c0.Cores, Threads := env.cpuCounts,
          Mhz := c0.Mhz, LoadPct := ⟨0⟩ }
      let cpuInfo : CPUInfo :=
        match env.cpuPercent with
        | p0 :: _ => { cpuInfo with LoadPct := p0 }
        | [] => cpuInfo
      match env.loadAvg with
      | none => none
      | some la =>
        let loadAvg : LoadAverage := { Load1 := la.Load1, Load5 := la.Load5, Load15 := la.Load15 }
        match env.virtualMemory with
        | none => none
        | some vm =>
          let memInfo : MemInfo := { Total := vm.Total, Used := vm.Used, Free := vm.Free }
          match diskLoop env.diskUsage env.partitions none with
          | none => none
          | some disks =>
            match queryGPU ParseFloat env.gpu with
            | none => none
            | some (gpus, _) =>
              some (some { CollectedAt := env.now, OS := osInfo, CPU := cpuInfo,
                           Memory := memInfo, Disk := disks, GPU := gpus,
                           Uptime := hInfo.Uptime, LoadAvg := loadAvg }, none)

/-! ## The rows of a payload

What the claims call the rows of a payload and their field counts: the records the csv
reader scans one after the other, before its check of the number of fields. -/

/-- The records scanned from the input in turn, each with its parse error if any. -/
def rowsLoop : Nat → Str → Option (List (List Str × Option CsvError))
  | 0, _ => none
  | fuel + 1, inp =>
    match scanRecord inp with
    | none => none
    | some none => some []
    | some (some (fields, err, rest)) =>
      (rowsLoop fuel rest).map (fun rs => (fields, err) :: rs)

/-- The rows of a payload. -/
def rows (inp : Str) : Option (List (List Str × Option CsvError)) :=
  rowsLoop (inp.length + 1) inp

/-- What `ReadAll` makes of the rows, from the value `fpr` of `FieldsPerRecord`. -/
def readAllRows : Int → List (List Str × Option CsvError) → List (List Str) →
    Except CsvError (List (List Str))
  | _, [], acc => .ok acc
  | fpr, (fields, err) :: rest, acc =>
    match (checkFieldCount fpr fields err).1 with
    | some e => .error e
    | none => readAllRows (checkFieldCount fpr fields err).2 rest (acc ++ [fields])

/-- What the loop of `parseProc` makes of the rows, from the value `fpr` of
`FieldsPerRecord`. -/
def procRows : Int → List (List Str × Option CsvError) → ProcMap → ProcMap
  | _, [], res => res
  | fpr, (fields, err) :: rest, res =>
    if (checkFieldCount fpr fields err).1 ≠ none ∨ fields.length ≠ 5 then
      procRows (checkFieldCount fpr fields err).2 rest res
    else procRows (checkFieldCount fpr fields err).2 rest (addProc res fields)

/-- The process records of the records whose first column, trimmed, is `uuid`, in
the order of the records. -/
def procsFor (uuid : Str) (recs : List (List Str)) : List GPUProc :=
  (recs.filter (fun rec => TrimSpace (rec.getD 0 []) = uuid)).map procOfRecord

/-! ## Decimal texts -/

/-- A decimal digit. -/
def isDigit (c : Char) : Bool := decide (0x30 ≤ c.toNat ∧ c.toNat ≤ 0x39)

/-- The number a text of decimal digits writes. -/
def decimalValue (t : Str) : Nat := t.foldl (fun n c => n * 10 + (c.toNat - 0x30)) 0

/-- The text begins with a decimal digit. -/
def startsWithDigit (t : Str) : Bool :=
  match t with
  | c :: _ => isDigit c
  | [] => false

/-- The text begins with a sign, `-` or `+`. -/
def startsWithSign (t : Str) : Bool :=
  match t with
  | c :: _ => c == '-' || c == '+'
  | [] => false

/-! ## Rows written with a space after each comma -/

/-- The fields joined by a comma and a space, the way `nvidia-smi` writes a row. -/
def joinRow : List Str → Str
  | [] => []
  | [f] => f
  | f :: g :: more => f ++ ',' :: ' ' :: joinRow (g :: more)

/-- A field without comma, quote, line feed or carriage return, that does not begin
with white space. -/
def plainField (f : Str) : Bool :=
  f.all (fun c => c != ',' && c != '"' && c != '\n' && c != '\r') &&
  (match f.head? with
   | none => true
   | some c => !isSpace c)

/-- The payload made of the rows, each written by `joinRow` and ended by a line
feed. -/
def payloadOf : List (List Str) → Str
  | [] => []
  | r :: more => joinRow r ++ '\n' :: payloadOf more

/-- The size bound on what the loop over a quoted field returns. -/
def QuotedEnd.within (q : QuotedEnd) (bound restBound : Nat) : Prop :=
  match q with
  | .nextField _ l r => l.length + r.length ≤ bound ∧ r.length ≤ restBound
  | .endRecord _ r => r.length ≤ restBound
  | .errQuote r => r.length ≤ restBound

/-! ## Example payloads -/

/-- The device row of the specification. -/
def specDeviceRow : Str :=
  "0, GPU-abc123, Tesla T4, 42, 25.10, 70.00, 16384, 1024, 15360, 5".toList

/-- The fields of the device row of the specification. -/
def specDeviceFields : List Str :=
  ["0".toList, "GPU-abc123".toList, "Tesla T4".toList, "42".toList, "25.10".toList,
   "70.00".toList, "16384".toList, "1024".toList, "15360".toList, "5".toList]

/-- A device payload of two rows. -/
def twoDevices : Str :=
  "0, G-a, T4, 42, 25.10, 70.00, 16384, 1024, 15360, 5\n1, G-b, T4, 40, 24.00, 70.00, 16384, 0, 16384, 0\n".toList

/-- The rows of `twoDevices`. -/
def twoDevicesRows : List (List Str × Option CsvError) :=
  [(["0".toList, "G-a".toList, "T4".toList, "42".toList, "25.10".toList, "70.00".toList,
     "16384".toList, "1024".toList, "15360".toList, "5".toList], none),
   (["1".toList, "G-b".toList, "T4".toList, "40".toList, "24.00".toList, "70.00".toList,
     "16384".toList, "0".toList, "16384".toList, "0".toList], none)]

/-- A process payload of three rows, on the two devices of `twoDevices`. -/
def threeProcs : Str :=
  "G-b, T4, 7, py, 100\nG-a, T4, 8, sh, 20\nG-b, T4, 9, cc, 3\n".toList

/-- The rows of `threeProcs`. -/
def threeProcsRows : List (List Str × Option CsvError) :=
  [(["G-b".toList, "T4".toList, "7".toList, "py".toList, "100".toList], none),
   (["G-a".toList, "T4".toList, "8".toList, "sh".toList, "20".toList], none),
   (["G-b".toList, "T4".toList, "9".toList, "cc".toList, "3".toList], none)]

/-- What the commands return when the tool is there and every command succeeds. -/
def gpuEnvOf (verOut mainOut procOut : Str) : GPUEnv :=
  { lookPath := none, verOut := verOut, mainOut := (mainOut, none), procOut := procOut }

/-- A `ParseFloat` for the examples, which do not look at the values it returns. -/
def noFloat : Str → Float64 := fun _ => ⟨0⟩

/-- A device row whose temperature column is `N/A`. -/
def naDeviceRow : Str :=
  "0, GPU-abc123, Tesla T4, N/A, 25.10, 70.00, 16384, 1024, 15360, 5".toList

/-- The fields of `naDeviceRow`. -/
def naDeviceFields : List Str :=
  ["0".toList, "GPU-abc123".toList, "Tesla T4".toList, "N/A".toList, "25.10".toList,
   "70.00".toList, "16384".toList, "1024".toList, "15360".toList, "5".toList]

/-- A process payload of two rows, the used memory of the second being `N/A`. -/
def naProcOut : Str :=
  "GPU-abc123, Tesla T4, 4242, python, 512\nGPU-abc123, Tesla T4, 4243, Xorg, N/A\n".toList

/-- The rows of `naProcOut`. -/
def naProcRows : List (List Str × Option CsvError) :=
  [(["GPU-abc123".toList, "Tesla T4".toList, "4242".toList, "python".toList,
     "512".toList], none),
   (["GPU-abc123".toList, "Tesla T4".toList, "4243".toList, "Xorg".toList,
     "N/A".toList], none)]

/-- A pass in which the tool is found and the device query fails with error 1, the
other collaborators answering. -/
def failedQueryEnv : Env :=
  { now := 0
    hostInfo := (some { Platform := "ubuntu".toList, PlatformFamily := "debian".toList,
                        PlatformVersion := "22.04".toList, KernelVersion := "6.1".toList,
                        Uptime := 100 }, none)
    cpuInfo := ([{ ModelName := "cpu".toList, Cores := 4, Mhz := ⟨0⟩ }], none)
    cpuCounts := 8
    cpuPercent := []
    loadAvg := some { Load1 := ⟨0⟩, Load5 := ⟨0⟩, Load15 := ⟨0⟩ }
    virtualMemory := some { Total := 16, Used := 8, Free := 8 }
    partitions := []
    diskUsage := fun _ => (none, some (.external 2))
    gpu := { lookPath := none, verOut := [], mainOut := ([], some (.external 1)),
             procOut := [] } }

/-! ## Lemmas on `strings` -/

theorem dropWhile_head_false {p : Char → Bool} (l : Str)
    (h : ∀ c, l.head? = some c → p c = false) : l.dropWhile p = l := by
  cases l with
  | nil => rfl
  | cons a t => simp [List.dropWhile, h a rfl]

theorem TrimSpace_eq_self (s : Str) (h1 : ∀ c, s.head? = some c → isSpace c = false)
    (h2 : ∀ c, s.getLast? = some c → isSpace c = false) : TrimSpace s = s := by
  unfold TrimSpace
  rw [dropWhile_head_false s h1, dropWhile_head_false s.reverse, List.reverse_reverse]
  intro c hc
  rw [List.head?_reverse] at hc
  exact h2 c hc

theorem hasPrefix_mem (p s : Str) (h : HasPrefix s p = true) : ∀ x ∈ p, x ∈ s := by
  induction p generalizing s with
  | nil => intro x hx; cases hx
  | cons a p1 ih =>
    cases s with
    | nil => simp [HasPrefix] at h
    | cons b s1 =>
      simp only [HasPrefix, Bool.and_eq_true, beq_iff_eq] at h
      intro x hx
      rcases List.mem_cons.mp hx with hx | hx
      · subst hx; rw [h.1]; exact List.mem_cons_self _ _
      · exact List.mem_cons_of_mem _ (ih s1 h.2 x hx)

theorem contains_mem (sub s : Str) (h : Contains s sub = true) : ∀ x ∈ sub, x ∈ s := by
  induction s with
  | nil => exact hasPrefix_mem sub [] (by simpa [Contains] using h)
  | cons c t ih =>
    simp only [Contains, Bool.or_eq_true] at h
    rcases h with h | h
    · exact hasPrefix_mem sub _ h
    · intro x hx; exact List.mem_cons_of_mem _ (ih h x hx)

theorem contains_of_no_space (s sub : Str) (hs : ∀ x ∈ s, isSpace x = false)
    (hsub : ∃ x ∈ sub, isSpace x = true) : Contains s sub = false := by
  cases hc : Contains s sub with
  | false => rfl
  | true =>
    obtain ⟨x, hx, hsp⟩ := hsub
    have := hs x (contains_mem sub s hc x hx)
    rw [hsp] at this; cases this

theorem splitAux_no_sep (sep : Char) (a cur : Str) (h : sep ∉ a) :
    splitAux sep a cur = [cur ++ a] := by
  induction a generalizing cur with
  | nil => simp [splitAux]
  | cons c t ih =>
    have hc : c ≠ sep := fun e => h (e ▸ List.mem_cons_self _ _)
    have ht : sep ∉ t := fun e => h (List.mem_cons_of_mem _ e)
    simp [splitAux, hc, ih _ ht]

theorem splitAux_append_sep (sep : Char) (a b cur : Str) (h : sep ∉ a) :
    splitAux sep (a ++ sep :: b) cur = (cur ++ a) :: splitAux sep b [] := by
  induction a generalizing cur with
  | nil => simp [splitAux]
  | cons c t ih =>
    have hc : c ≠ sep := fun e => h (e ▸ List.mem_cons_self _ _)
    have ht : sep ∉ t := fun e => h (List.mem_cons_of_mem _ e)
    simp [splitAux, hc, ih _ ht]

theorem fieldsAux_ne_nil (s cur : Str) (h : cur ≠ [] ∨ ∃ c ∈ s, isSpace c = false) :
    fieldsAux s cur ≠ [] := by
  induction s generalizing cur with
  | nil =>
    rcases h with h | ⟨c, hc, _⟩
    · cases cur with
      | nil => exact absurd rfl h
      | cons a t => simp [fieldsAux]
    · cases hc
  | cons c t ih =>
    unfold fieldsAux
    by_cases hsp : isSpace c = true
    · rw [if_pos hsp]
      cases cur with
      | nil =>
        simp only [List.isEmpty_nil, if_true]
        apply ih
        rcases h with h | ⟨x, hx, hns⟩
        · exact absurd rfl h
        · rcases List.mem_cons.mp hx with hx | hx
          · subst hx; rw [hsp] at hns; cases hns
          · exact Or.inr ⟨x, hx, hns⟩
      | cons a u => simp
    · rw [if_neg hsp]
      exact ih _ (Or.inl (by simp))

theorem fieldsAux_mem_ne_nil (s cur tok : Str) (h : tok ∈ fieldsAux s cur) : tok ≠ [] := by
  induction s generalizing cur with
  | nil =>
    cases cur with
    | nil => simp [fieldsAux] at h
    | cons a t => simp [fieldsAux] at h; simp [h]
  | cons c t ih =>
    unfold fieldsAux at h
    by_cases hsp : isSpace c = true
    · rw [if_pos hsp] at h
      cases cur with
      | nil => simp only [List.isEmpty_nil, if_true] at h; exact ih _ h
      | cons a u =>
        simp only [List.isEmpty_cons, Bool.false_eq_true, if_false, List.mem_cons] at h
        rcases h with h | h
        · simp [h]
        · exact ih _ h
    · rw [if_neg hsp] at h
      exact ih _ h

theorem fieldsAux_no_space (d cur : Str) (h : ∀ x ∈ d, isSpace x = false) :
    fieldsAux d cur = if (cur ++ d).isEmpty then [] else [cur ++ d] := by
  induction d generalizing cur with
  | nil => simp [fieldsAux]
  | cons c t ih =>
    have hc : isSpace c = false := h c (List.mem_cons_self _ _)
    have ht : ∀ x ∈ t, isSpace x = false := fun x hx => h x (List.mem_cons_of_mem _ hx)
    unfold fieldsAux
    simp [hc, ih _ ht]

/-! ## Lemmas on `parseVersion` -/

theorem fields_ne_nil_of_label (ln : Str)
    (h : isDriverLine ln = true ∨ isCudaLine ln = true) : Fields ln ≠ [] := by
  unfold Fields
  apply fieldsAux_ne_nil
  right
  rcases h with h | h
  · refine ⟨'D', ?_, by decide⟩
    simp only [isDriverLine, Bool.or_eq_true] at h
    rcases h with h | h
    · exact hasPrefix_mem _ ln h 'D' (by decide)
    · exact contains_mem _ ln h 'D' (by decide)
  · refine ⟨'C', ?_, by decide⟩
    simp only [isCudaLine, Bool.or_eq_true] at h
    rcases h with h | h
    · exact hasPrefix_mem _ ln h 'C' (by decide)
    · exact contains_mem _ ln h 'C' (by decide)

theorem getLast?_isSome_of_ne_nil {α : Type} (l : List α) (h : l ≠ []) :
    ∃ x, l.getLast? = some x := by
  cases hl : l.getLast? with
  | none => exact absurd (List.getLast?_eq_none_iff.mp hl) h
  | some x => exact ⟨x, rfl⟩

theorem parseVersionLine_driver (st : Str × Str) (ln : Str)
    (h : isDriverLine (TrimSpace ln) = true) :
    ∃ tok, (Fields (TrimSpace ln)).getLast? = some tok ∧ tok ≠ [] ∧
      parseVersionLine st ln = some (tok, st.2) := by
  obtain ⟨tok, htok⟩ := getLast?_isSome_of_ne_nil _ (fields_ne_nil_of_label _ (Or.inl h))
  refine ⟨tok, htok, ?_, ?_⟩
  · exact fieldsAux_mem_ne_nil _ _ _ (List.mem_of_getLast?_eq_some htok)
  · simp [parseVersionLine, h, htok]

theorem parseVersionLine_cuda (st : Str × Str) (ln : Str)
    (hd : isDriverLine (TrimSpace ln) = false) (h : isCudaLine (TrimSpace ln) = true) :
    ∃ tok, (Fields (TrimSpace ln)).getLast? = some tok ∧ tok ≠ [] ∧
      parseVersionLine st ln = some (st.1, tok) := by
  obtain ⟨tok, htok⟩ := getLast?_isSome_of_ne_nil _ (fields_ne_nil_of_label _ (Or.inr h))
  refine ⟨tok, htok, ?_, ?_⟩
  · exact fieldsAux_mem_ne_nil _ _ _ (List.mem_of_getLast?_eq_some htok)
  · simp [parseVersionLine, hd, h, htok]

theorem parseVersionLine_other (st : Str × Str) (ln : Str)
    (hd : isDriverLine (TrimSpace ln) = false) (hc : isCudaLine (TrimSpace ln) = false) :
    parseVersionLine st ln = some st := by
  simp [parseVersionLine, hd, hc]

theorem parseVersionLine_isSome (st : Str × Str) (ln : Str) :
    ∃ st1, parseVersionLine st ln = some st1 := by
  cases hd : isDriverLine (TrimSpace ln) with
  | true =>
    obtain ⟨tok, _, _, h⟩ := parseVersionLine_driver st ln hd
    exact ⟨_, h⟩
  | false =>
    cases hc : isCudaLine (TrimSpace ln) with
    | true =>
      obtain ⟨tok, _, _, h⟩ := parseVersionLine_cuda st ln hd hc
      exact ⟨_, h⟩
    | false => exact ⟨_, parseVersionLine_other st ln hd hc⟩

theorem parseVersionLoop_isSome (lines : List Str) (st : Str × Str) :
    ∃ st1, parseVersionLoop lines st = some st1 := by
  induction lines generalizing st with
  | nil => exact ⟨st, rfl⟩
  | cons ln rest ih =>
    obtain ⟨st1, h1⟩ := parseVersionLine_isSome st ln
    obtain ⟨st2, h2⟩ := ih st1
    exact ⟨st2, by simp [parseVersionLoop, h1, h2]⟩

theorem parseVersion_isSome (out : Str) : ∃ st, parseVersion out = some st :=
  parseVersionLoop_isSome _ _

theorem parseVersionLoop_append (l1 l2 : List Str) (st : Str × Str) :
    parseVersionLoop (l1 ++ l2) st = (parseVersionLoop l1 st).bind (parseVersionLoop l2) := by
  induction l1 generalizing st with
  | nil => rfl
  | cons ln rest ih =>
    simp only [List.cons_append, parseVersionLoop]
    cases parseVersionLine st ln with
    | none => rfl
    | some st1 => exact ih st1

theorem parseVersionLoop_no_match (lines : List Str) (st : Str × Str)
    (h : ∀ ln ∈ lines, isDriverLine (TrimSpace ln) = false ∧ isCudaLine (TrimSpace ln) = false) :
    parseVersionLoop lines st = some st := by
  induction lines with
  | nil => rfl
  | cons ln rest ih =>
    have h1 := h ln (List.mem_cons_self _ _)
    simp only [parseVersionLoop, parseVersionLine_other st ln h1.1 h1.2]
    exact ih (fun l hl => h l (List.mem_cons_of_mem _ hl))

theorem parseVersionLoop_keeps_driver (lines : List Str) (d c : Str)
    (h : ∀ ln ∈ lines, isDriverLine (TrimSpace ln) = false) :
    ∃ c1, parseVersionLoop lines (d, c) = some (d, c1) := by
  induction lines generalizing c with
  | nil => exact ⟨c, rfl⟩
  | cons ln rest ih =>
    have hd := h ln (List.mem_cons_self _ _)
    have hr : ∀ l ∈ rest, isDriverLine (TrimSpace l) = false :=
      fun l hl => h l (List.mem_cons_of_mem _ hl)
    cases hc : isCudaLine (TrimSpace ln) with
    | true =>
      obtain ⟨tok, _, _, h1⟩ := parseVersionLine_cuda (d, c) ln hd hc
      obtain ⟨c1, h2⟩ := ih tok hr
      exact ⟨c1, by simp [parseVersionLoop, h1, h2]⟩
    | false =>
      obtain ⟨c1, h2⟩ := ih c hr
      exact ⟨c1, by simp [parseVersionLoop, parseVersionLine_other (d, c) ln hd hc, h2]⟩

theorem parseVersionLoop_keeps_cuda (lines : List Str) (d c : Str)
    (h : ∀ ln ∈ lines, isDriverLine (TrimSpace ln) = true ∨ isCudaLine (TrimSpace ln) = false) :
    ∃ d1, parseVersionLoop lines (d, c) = some (d1, c) := by
  induction lines generalizing d with
  | nil => exact ⟨d, rfl⟩
  | cons ln rest ih =>
    have hr : ∀ l ∈ rest, isDriverLine (TrimSpace l) = true ∨ isCudaLine (TrimSpace l) = false :=
      fun l hl => h l (List.mem_cons_of_mem _ hl)
    cases hd : isDriverLine (TrimSpace ln) with
    | true =>
      obtain ⟨tok, _, _, h1⟩ := parseVersionLine_driver (d, c) ln hd
      obtain ⟨d1, h2⟩ := ih tok hr
      exact ⟨d1, by simp [parseVersionLoop, h1, h2]⟩
    | false =>
      have hc : isCudaLine (TrimSpace ln) = false := by
        rcases h ln (List.mem_cons_self _ _) with h0 | h0
        · rw [hd] at h0; cases h0
        · exact h0
      obtain ⟨d1, h2⟩ := ih d hr
      exact ⟨d1, by simp [parseVersionLoop, parseVersionLine_other (d, c) ln hd hc, h2]⟩

/-! ## Claims on `parseVersion` -/

theorem banner_line_no_newline (label d : Str) (hl : '\n' ∉ label)
    (hd : ∀ x ∈ d, isSpace x = false) : '\n' ∉ label ++ d := by
  intro h
  rcases List.mem_append.mp h with h | h
  · exact hl h
  · have := hd _ h
    revert this
    decide

theorem banner_line_trim (label d : Str) (hl : ∀ c, label.head? = some c → isSpace c = false)
    (hne : label ≠ []) (hd0 : d ≠ []) (hd : ∀ x ∈ d, isSpace x = false) :
    TrimSpace (label ++ d) = label ++ d := by
  apply TrimSpace_eq_self
  · intro c hc
    cases label with
    | nil => exact absurd rfl hne
    | cons a t => exact hl c (by simpa using hc)
  · intro c hc
    rw [List.getLast?_append] at hc
    obtain ⟨x, hx⟩ := getLast?_isSome_of_ne_nil d hd0
    rw [hx] at hc
    simp at hc
    subst hc
    exact hd _ (List.mem_of_getLast?_eq_some hx)

/-- C6. The banner `"Driver version: d\nCUDA Version: c"`, for non-empty tokens `d`
and `c` without white space, gives `(d, c)`; so `"Driver version: 535.104.05\nCUDA
Version: 12.2"` gives `("535.104.05", "12.2")`; and a banner none of whose lines matches a
label gives the empty string twice. -/
theorem parseVersion_banner (d c : Str) (hd0 : d ≠ []) (hc0 : c ≠ [])
    (hd : ∀ x ∈ d, isSpace x = false) (hc : ∀ x ∈ c, isSpace x = false) :
    parseVersion ("Driver version: ".toList ++ d ++ "\nCUDA Version: ".toList ++ c)
        = some (d, c) ∧
    parseVersion "Driver version: 535.104.05\nCUDA Version: 12.2".toList
        = some ("535.104.05".toList, "12.2".toList) ∧
    ∀ out : Str,
      (∀ ln ∈ Split out '\n',
        isDriverLine (TrimSpace ln) = false ∧ isCudaLine (TrimSpace ln) = false) →
      parseVersion out = some ([], []) := by
  refine ⟨?_, by decide, fun out h => parseVersionLoop_no_match _ _ h⟩
  have hsplit : Split ("Driver version: ".toList ++ d ++ "\nCUDA Version: ".toList ++ c) '\n'
      = ["Driver version: ".toList ++ d, "CUDA Version: ".toList ++ c] := by
    have e : "Driver version: ".toList ++ d ++ "\nCUDA Version: ".toList ++ c
        = ("Driver version: ".toList ++ d) ++ '\n' :: ("CUDA Version: ".toList ++ c) := by
      simp
    rw [e]
    unfold Split
    rw [splitAux_append_sep _ _ _ _ (banner_line_no_newline _ d (by decide) hd),
      splitAux_no_sep _ _ _ (banner_line_no_newline _ c (by decide) hc)]
    rfl
  have ht1 := banner_line_trim "Driver version: ".toList d (by decide) (by decide) hd0 hd
  have ht2 := banner_line_trim "CUDA Version: ".toList c (by decide) (by decide) hc0 hc
  have hf1 : (Fields ("Driver version: ".toList ++ d)).getLast? = some d := by
    have e : Fields ("Driver version: ".toList ++ d)
        = "Driver".toList :: "version:".toList :: fieldsAux d [] := rfl
    rw [e, fieldsAux_no_space d [] hd]
    cases d with
    | nil => exact absurd rfl hd0
    | cons a t => simp
  have hf2 : (Fields ("CUDA Version: ".toList ++ c)).getLast? = some c := by
    have e : Fields ("CUDA Version: ".toList ++ c)
        = "CUDA".toList :: "Version:".toList :: fieldsAux c [] := rfl
    rw [e, fieldsAux_no_space c [] hc]
    cases c with
    | nil => exact absurd rfl hc0
    | cons a t => simp
  have hm1 : isDriverLine ("Driver version: ".toList ++ d) = true := rfl
  have hm2 : isDriverLine ("CUDA Version: ".toList ++ c) = false := by
    have e : isDriverLine ("CUDA Version: ".toList ++ c)
        = Contains c "DRIVER version".toList := rfl
    rw [e]
    exact contains_of_no_space c _ hc ⟨' ', by decide, by decide⟩
  have hm3 : isCudaLine ("CUDA Version: ".toList ++ c) = true := rfl
  have key : ∀ l1 l2 : Str, TrimSpace l1 = l1 → TrimSpace l2 = l2 →
      isDriverLine l1 = true → isDriverLine l2 = false → isCudaLine l2 = true →
      (Fields l1).getLast? = some d → (Fields l2).getLast? = some c →
      parseVersionLoop [l1, l2] ([], []) = some (d, c) := by
    intro l1 l2 e1 e2 m1 m2 m3 f1 f2
    simp [parseVersionLoop, parseVersionLine, e1, e2, m1, m2, m3, f1, f2]
  unfold parseVersion
  rw [hsplit]
  exact key _ _ ht1 ht2 hm1 hm2 hm3 hf1 hf2

/-- C6, at the banner of the specification. -/
theorem parseVersion_banner_witness :
    parseVersion ("Driver version: ".toList ++ "535.104.05".toList ++
        "\nCUDA Version: ".toList ++ "12.2".toList)
      = some ("535.104.05".toList, "12.2".toList) :=
  (parseVersion_banner "535.104.05".toList "12.2".toList (by decide) (by decide)
    (by decide) (by decide)).1

/-- C7, as the claim states it, fails: the banner `"Driver version"` (the label, no
token after it) gives the driver version `"version"`, not the empty string, and the banner
`"CUDA Version"` gives the compute-platform version `"Version"`. -/
theorem parseVersion_label_only_counterexample :
    parseVersion "Driver version".toList = some ("version".toList, []) ∧
    parseVersion "CUDA Version".toList = some ([], "Version".toList) := by
  decide

/-- C7, amended. When a line of the banner matches the driver label and no later
line does, the driver version is the last white-space-delimited token of that line, which
is never the empty string: for the line `"Driver version"` it is `"version"`.  Likewise
for the compute-platform label (on a line that does not match the driver label): for the
line `"CUDA Version"` the value is `"Version"`. -/
theorem parseVersion_label_only (out ln : Str) (before after : List Str)
    (hsplit : Split out '\n' = before ++ ln :: after) :
    (isDriverLine (TrimSpace ln) = true →
      (∀ l ∈ after, isDriverLine (TrimSpace l) = false) →
      ∃ tok cuda, (Fields (TrimSpace ln)).getLast? = some tok ∧ tok ≠ [] ∧
        parseVersion out = some (tok, cuda) ∧
        (TrimSpace ln = "Driver version".toList → tok = "version".toList)) ∧
    (isDriverLine (TrimSpace ln) = false → isCudaLine (TrimSpace ln) = true →
      (∀ l ∈ after, isDriverLine (TrimSpace l) = true ∨ isCudaLine (TrimSpace l) = false) →
      ∃ driver tok, (Fields (TrimSpace ln)).getLast? = some tok ∧ tok ≠ [] ∧
        parseVersion out = some (driver, tok) ∧
        (TrimSpace ln = "CUDA Version".toList → tok = "Version".toList)) := by
  obtain ⟨st0, h0⟩ := parseVersionLoop_isSome before ([], [])
  constructor
  · intro hln hafter
    obtain ⟨tok, htok, hne, h1⟩ := parseVersionLine_driver st0 ln hln
    obtain ⟨c1, h2⟩ := parseVersionLoop_keeps_driver after tok st0.2 hafter
    refine ⟨tok, c1, htok, hne, ?_, ?_⟩
    · unfold parseVersion
      rw [hsplit, parseVersionLoop_append, h0]
      simp [parseVersionLoop, h1, h2]
    · intro e
      rw [e] at htok
      have : (Fields "Driver version".toList).getLast? = some "version".toList := by decide
      rw [this] at htok
      exact (Option.some.inj htok).symm
  · intro hd hln hafter
    obtain ⟨tok, htok, hne, h1⟩ := parseVersionLine_cuda st0 ln hd hln
    obtain ⟨d1, h2⟩ := parseVersionLoop_keeps_cuda after st0.1 tok hafter
    refine ⟨d1, tok, htok, hne, ?_, ?_⟩
    · unfold parseVersion
      rw [hsplit, parseVersionLoop_append, h0]
      simp [parseVersionLoop, h1, h2]
    · intro e
      rw [e] at htok
      have : (Fields "CUDA Version".toList).getLast? = some "Version".toList := by decide
      rw [this] at htok
      exact (Option.some.inj htok).symm

/-- C7, amended, at a banner whose second line is the bare driver label. -/
theorem parseVersion_label_only_witness :
    ∃ tok cuda, (Fields (TrimSpace "  Driver version ".toList)).getLast? = some tok ∧
      tok ≠ [] ∧
      parseVersion "NVIDIA-SMI 535\n  Driver version \nCUDA Version: 12.2".toList
        = some (tok, cuda) ∧
      (TrimSpace "  Driver version ".toList = "Driver version".toList →
        tok = "version".toList) :=
  (parseVersion_label_only "NVIDIA-SMI 535\n  Driver version \nCUDA Version: 12.2".toList
    "  Driver version ".toList ["NVIDIA-SMI 535".toList] ["CUDA Version: 12.2".toList]
    (by decide)).1 (by decide) (by decide)

/-- C8. `parseVersion` returns for every banner: on every line that matches a
label the list of tokens is non-empty, so `f[len(f)-1]` is in range. -/
theorem parseVersion_returns (out : Str) :
    (∃ driver cuda, parseVersion out = some (driver, cuda)) ∧
    ∀ ln ∈ Split out '\n',
      isDriverLine (TrimSpace ln) = true ∨ isCudaLine (TrimSpace ln) = true →
      Fields (TrimSpace ln) ≠ [] ∧ ∃ tok, (Fields (TrimSpace ln)).getLast? = some tok := by
  constructor
  · obtain ⟨st, h⟩ := parseVersion_isSome out
    exact ⟨st.1, st.2, h⟩
  · intro ln _ h
    exact ⟨fields_ne_nil_of_label _ h,
      getLast?_isSome_of_ne_nil _ (fields_ne_nil_of_label _ h)⟩

/-! ## Lemmas: the loops over the records -/

theorem readAllLoop_eq_rows (n : Nat) (inp : Str) (fpr : Int) (acc : List (List Str))
    (rs : List (List Str × Option CsvError)) (h : rowsLoop n inp = some rs) :
    readAllLoop n { input := inp, FieldsPerRecord := fpr } acc
      = some (readAllRows fpr rs acc) := by
  induction n generalizing inp fpr acc rs with
  | zero => simp [rowsLoop] at h
  | succ n ih =>
    unfold rowsLoop at h
    unfold readAllLoop Reader.Read
    cases hs : scanRecord inp with
    | none => simp [hs] at h
    | some o =>
      cases o with
      | none =>
        simp only [hs, Option.some.injEq] at h
        subst h
        simp [readAllRows]
      | some t =>
        obtain ⟨fields, err, rest⟩ := t
        simp only [hs, Option.map_eq_some'] at h
        obtain ⟨rs1, h1, h2⟩ := h
        subst h2
        simp only [readAllRows]
        cases hc : (checkFieldCount fpr fields err).1 with
        | some e => simp
        | none => simpa using ih rest _ _ rs1 h1

theorem parseProcLoop_eq_rows (n : Nat) (inp : Str) (fpr : Int) (res : ProcMap)
    (rs : List (List Str × Option CsvError)) (h : rowsLoop n inp = some rs) :
    parseProcLoop n { input := inp, FieldsPerRecord := fpr } res
      = some (procRows fpr rs res) := by
  induction n generalizing inp fpr res rs with
  | zero => simp [rowsLoop] at h
  | succ n ih =>
    unfold rowsLoop at h
    unfold parseProcLoop Reader.Read
    cases hs : scanRecord inp with
    | none => simp [hs] at h
    | some o =>
      cases o with
      | none =>
        simp only [hs, Option.some.injEq] at h
        subst h
        simp [procRows]
      | some t =>
        obtain ⟨fields, err, rest⟩ := t
        simp only [hs, Option.map_eq_some'] at h
        obtain ⟨rs1, h1, h2⟩ := h
        subst h2
        simp only [procRows]
        cases hc : (checkFieldCount fpr fields err).1 with
        | some e => simpa using ih rest _ res rs1 h1
        | none =>
          by_cases hl : fields.length = 5
          · simpa [hl] using ih rest _ _ rs1 h1
          · simpa [hl] using ih rest _ res rs1 h1

theorem readAll_eq_rows (inp : Str) (rs : List (List Str × Option CsvError))
    (h : rows inp = some rs) : (NewReader inp).ReadAll = some (readAllRows 0 rs []) :=
  readAllLoop_eq_rows _ inp 0 [] rs h

theorem parseProc_eq_rows (inp : Str) (rs : List (List Str × Option CsvError))
    (h : rows inp = some rs) : parseProc inp = some (procRows 0 rs []) := by
  unfold parseProc
  by_cases h0 : inp.length = 0
  · have e : inp = [] := List.length_eq_zero.mp h0
    subst e
    have : rs = [] := by
      have h2 : rows [] = some [] := by decide
      rw [h2] at h
      exact (Option.some.inj h).symm
    subst this
    simp [procRows]
  · rw [if_neg h0]
    exact parseProcLoop_eq_rows _ inp 0 [] rs h

theorem checkFieldCount_clean (k : Nat) (fpr : Int) (fields : List Str)
    (hf : fpr = 0 ∨ fpr = (k : Int)) (hl : fields.length = k) :
    (checkFieldCount fpr fields none).1 = none ∧
    ((checkFieldCount fpr fields none).2 = 0 ∨ (checkFieldCount fpr fields none).2 = (k : Int)) := by
  unfold checkFieldCount
  rcases hf with hf | hf
  · subst hf
    simp [hl]
  · subst hf
    by_cases hk : (0 : Int) < (k : Int)
    · simp [hk, hl]
    · have : k = 0 := by omega
      subst this
      simp [hl]

theorem readAllRows_clean (k : Nat) (rs : List (List Str × Option CsvError)) (fpr : Int)
    (acc : List (List Str)) (hf : fpr = 0 ∨ fpr = (k : Int))
    (hw : ∀ r ∈ rs, r.2 = none ∧ r.1.length = k) :
    readAllRows fpr rs acc = .ok (acc ++ rs.map Prod.fst) := by
  induction rs generalizing fpr acc with
  | nil => simp [readAllRows]
  | cons r rest ih =>
    obtain ⟨fields, err⟩ := r
    obtain ⟨he, hl⟩ := hw (fields, err) (List.mem_cons_self _ _)
    simp only at he hl
    subst he
    obtain ⟨h1, h2⟩ := checkFieldCount_clean k fpr fields hf hl
    simp only [readAllRows, h1]
    rw [ih _ _ h2 (fun r hr => hw r (List.mem_cons_of_mem _ hr))]
    simp

theorem procRows_clean (rs : List (List Str × Option CsvError)) (fpr : Int)
    (res : ProcMap) (hf : fpr = 0 ∨ fpr = 5)
    (hw : ∀ r ∈ rs, r.2 = none ∧ r.1.length = 5) :
    procRows fpr rs res = (rs.map Prod.fst).foldl addProc res := by
  induction rs generalizing fpr res with
  | nil => simp [procRows]
  | cons r rest ih =>
    obtain ⟨fields, err⟩ := r
    obtain ⟨he, hl⟩ := hw (fields, err) (List.mem_cons_self _ _)
    simp only at he hl
    subst he
    obtain ⟨h1, h2⟩ := checkFieldCount_clean 5 fpr fields hf hl
    simp only [procRows, h1, hl]
    simp only [ne_eq, not_true_eq_false, or_self, if_false, List.map_cons, List.foldl_cons]
    exact ih _ _ h2 (fun r hr => hw r (List.mem_cons_of_mem _ hr))

/-! ## Lemmas: the process table -/

theorem mapGet_mapSet (m : ProcMap) (k k1 : Str) (v : Slice GPUProc) :
    mapGet (mapSet m k v) k1 = if k = k1 then some v else mapGet m k1 := by
  induction m with
  | nil => simp [mapSet, mapGet]
  | cons e t ih =>
    obtain ⟨k0, v0⟩ := e
    unfold mapSet
    by_cases h0 : k0 = k
    · rw [if_pos h0]
      by_cases h1 : k = k1
      · rw [if_pos h1]
        unfold mapGet
        rw [if_pos h1]
      · rw [if_neg h1]
        unfold mapGet
        rw [if_neg h1, if_neg (by rw [h0]; exact h1)]
    · rw [if_neg h0]
      unfold mapGet
      by_cases h1 : k0 = k1
      · have h2 : ¬ k = k1 := by rw [← h1]; exact Ne.symm h0
        rw [if_pos h1, if_neg h2, if_pos h1]
      · rw [if_neg h1, ih, if_neg h1]

theorem sliceElems_sliceAppend {α : Type} (s : Slice α) (x : α) :
    sliceElems (sliceAppend s x) = sliceElems s ++ [x] := rfl

theorem mapGet_addProc (res : ProcMap) (rec : List Str) (k : Str) :
    mapGet (addProc res rec) k =
      if TrimSpace (rec.getD 0 []) = k then
        some (some (sliceElems ((mapGet res k).getD none) ++ [procOfRecord rec]))
      else mapGet res k := by
  unfold addProc
  simp only [mapGet_mapSet]
  by_cases h : TrimSpace (rec.getD 0 []) = k
  · have e : (procOfRecord rec).GPUUUID = k := h
    simp only [e, if_true, h]
    rfl
  · have e : ¬ (procOfRecord rec).GPUUUID = k := h
    simp only [if_neg e, if_neg h]

theorem procsFor_cons (k : Str) (rec : List Str) (rest : List (List Str)) :
    procsFor k (rec :: rest) =
      if TrimSpace (rec.getD 0 []) = k then procOfRecord rec :: procsFor k rest
      else procsFor k rest := by
  unfold procsFor
  rw [List.filter_cons]
  by_cases h : TrimSpace (rec.getD 0 []) = k
  · rw [if_pos h, if_pos (by simpa using h)]
    rfl
  · rw [if_neg h, if_neg (by simpa using h)]

theorem procsFor_uuid (k : Str) (recs : List (List Str)) (p : GPUProc)
    (h : p ∈ procsFor k recs) : p.GPUUUID = k := by
  unfold procsFor at h
  obtain ⟨rec, hrec, e⟩ := List.mem_map.mp h
  subst e
  have h2 : TrimSpace (rec.getD 0 []) = k := by
    simpa using (List.mem_filter.mp hrec).2
  exact h2

theorem mapGet_foldl_addProc (recs : List (List Str)) (res : ProcMap) (k : Str) :
    sliceElems ((mapGet (recs.foldl addProc res) k).getD none)
      = sliceElems ((mapGet res k).getD none) ++ procsFor k recs ∧
    (mapGet (recs.foldl addProc res) k = none ↔ mapGet res k = none ∧ procsFor k recs = []) := by
  induction recs generalizing res with
  | nil => simp [procsFor]
  | cons rec rest ih =>
    rw [List.foldl_cons]
    obtain ⟨ih1, ih2⟩ := ih (addProc res rec)
    rw [ih1, ih2, mapGet_addProc, procsFor_cons]
    by_cases h : TrimSpace (rec.getD 0 []) = k
    · rw [if_pos h, if_pos h]
      constructor
      · simp [sliceElems]
      · simp
    · rw [if_neg h, if_neg h]
      exact ⟨rfl, Iff.rfl⟩

/-! ## Lemmas: the row loop of `queryGPU` -/

theorem gpuRow_UUID (pf : Str → Float64) (driver cuda : Str) (procMap : ProcMap)
    (rec : List Str) :
    (gpuRow pf driver cuda procMap rec).UUID = TrimSpace (rec.getD 1 []) := by
  simp only [gpuRow]
  split <;> rfl

theorem gpuRow_Processes (pf : Str → Float64) (driver cuda : Str) (procMap : ProcMap)
    (rec : List Str) :
    (gpuRow pf driver cuda procMap rec).Processes
      = (mapGet procMap (TrimSpace (rec.getD 1 []))).getD none := by
  have e : (gpuOfRecord pf driver cuda rec).UUID = TrimSpace (rec.getD 1 []) := rfl
  simp only [gpuRow, e]
  split
  · next procs h => rw [h]; rfl
  · next h => rw [h]; rfl

theorem sliceElems_gpuLoop (pf : Str → Float64) (driver cuda : Str) (procMap : ProcMap)
    (records : List (List Str)) (gpus : Slice GPUInfo) :
    sliceElems (gpuLoop pf driver cuda procMap records gpus)
      = sliceElems gpus ++
        (records.filter (fun rec => rec.length = 10)).map (gpuRow pf driver cuda procMap) := by
  induction records generalizing gpus with
  | nil => simp [gpuLoop]
  | cons rec rest ih =>
    unfold gpuLoop
    by_cases h : rec.length = 10
    · simp [h, ih, sliceElems_sliceAppend]
    · simp [h, ih]

/-! ## Claims on the join of the device rows with the process table -/

theorem queryGPU_of_rows (pf : Str → Float64) (env : GPUEnv)
    (drows prows : List (List Str × Option CsvError))
    (hlook : env.lookPath = none) (hrun : env.mainOut.2 = none)
    (hd : rows env.mainOut.1 = some drows) (hp : rows env.procOut = some prows) :
    ∃ driver cuda, parseVersion env.verOut = some (driver, cuda) ∧
      queryGPU pf env =
        some (match readAllRows 0 drows [] with
          | .error e => (none, some (.csv e))
          | .ok records => (gpuLoop pf driver cuda (procRows 0 prows []) records none, none)) := by
  obtain ⟨⟨driver, cuda⟩, hv⟩ := parseVersion_isSome env.verOut
  refine ⟨driver, cuda, hv, ?_⟩
  unfold queryGPU
  rw [hlook, hv, hrun, parseProc_eq_rows _ _ hp, readAll_eq_rows _ _ hd]
  cases readAllRows 0 drows [] <;> simp

/-- C1. When every row of the device payload is a clean row of 10 fields and every
row of the process payload a clean row of 5 fields, `queryGPU` returns one record per
device row, in order, and the process list of each record is exactly the list of the
process records `parseProc` builds from the process rows whose first column, trimmed, is
the UUID of the record, in the order of the process payload (the table of `parseProc`
holds that same list under that UUID), with no record of another UUID. -/
theorem queryGPU_processes (pf : Str → Float64) (env : GPUEnv)
    (drows prows : List (List Str × Option CsvError))
    (hlook : env.lookPath = none) (hrun : env.mainOut.2 = none)
    (hd : rows env.mainOut.1 = some drows)
    (hdw : ∀ r ∈ drows, r.2 = none ∧ r.1.length = 10)
    (hp : rows env.procOut = some prows)
    (hpw : ∀ r ∈ prows, r.2 = none ∧ r.1.length = 5) :
    ∃ gpus procMap, queryGPU pf env = some (gpus, none) ∧
      parseProc env.procOut = some procMap ∧
      (∀ uuid, sliceElems ((mapGet procMap uuid).getD none)
        = procsFor uuid (prows.map Prod.fst)) ∧
      (sliceElems gpus).map GPUInfo.UUID
        = drows.map (fun r => TrimSpace (r.1.getD 1 [])) ∧
      ∀ g ∈ sliceElems gpus,
        sliceElems g.Processes = procsFor g.UUID (prows.map Prod.fst) ∧
        ∀ p ∈ sliceElems g.Processes, p.GPUUUID = g.UUID := by
  obtain ⟨driver, cuda, _, hq⟩ := queryGPU_of_rows pf env drows prows hlook hrun hd hp
  rw [readAllRows_clean 10 drows 0 [] (Or.inl rfl) hdw,
    procRows_clean prows 0 [] (Or.inl rfl) hpw] at hq
  simp only [List.nil_append] at hq
  have htab : ∀ uuid, sliceElems ((mapGet ((prows.map Prod.fst).foldl addProc []) uuid).getD none)
      = procsFor uuid (prows.map Prod.fst) := by
    intro uuid
    rw [(mapGet_foldl_addProc (prows.map Prod.fst) [] uuid).1]
    rfl
  have hall : (List.map Prod.fst drows).filter (fun rec => rec.length = 10)
      = List.map Prod.fst drows := by
    rw [List.filter_eq_self]
    intro rec hrec
    obtain ⟨r, hr, e⟩ := List.mem_map.mp hrec
    subst e
    simpa using (hdw r hr).2
  refine ⟨_, _, hq, ?_, htab, ?_, ?_⟩
  · rw [parseProc_eq_rows _ _ hp, procRows_clean prows 0 [] (Or.inl rfl) hpw]
  · rw [sliceElems_gpuLoop, hall]
    simp [sliceElems, gpuRow_UUID, Function.comp_def]
  · intro g hg
    rw [sliceElems_gpuLoop, hall] at hg
    simp only [sliceElems, Option.getD_none, List.nil_append, List.append_nil,
      List.mem_map] at hg
    obtain ⟨rec, _, e⟩ := hg
    subst e
    have hproc : sliceElems (gpuRow pf driver cuda
          ((prows.map Prod.fst).foldl addProc []) rec).Processes
        = procsFor (gpuRow pf driver cuda ((prows.map Prod.fst).foldl addProc []) rec).UUID
            (prows.map Prod.fst) := by
      rw [gpuRow_Processes, gpuRow_UUID]
      exact htab _
    refine ⟨hproc, fun p hp1 => ?_⟩
    rw [hproc] at hp1
    exact procsFor_uuid _ _ p hp1

/-- C1, at a payload of two devices and three processes. -/
theorem queryGPU_processes_witness :
    ∃ gpus procMap, queryGPU noFloat (gpuEnvOf [] twoDevices threeProcs) = some (gpus, none) ∧
      parseProc (gpuEnvOf [] twoDevices threeProcs).procOut = some procMap ∧
      (∀ uuid, sliceElems ((mapGet procMap uuid).getD none)
        = procsFor uuid (threeProcsRows.map Prod.fst)) ∧
      (sliceElems gpus).map GPUInfo.UUID
        = twoDevicesRows.map (fun r => TrimSpace (r.1.getD 1 [])) ∧
      ∀ g ∈ sliceElems gpus,
        sliceElems g.Processes = procsFor g.UUID (threeProcsRows.map Prod.fst) ∧
        ∀ p ∈ sliceElems g.Processes, p.GPUUUID = g.UUID :=
  queryGPU_processes noFloat (gpuEnvOf [] twoDevices threeProcs) twoDevicesRows threeProcsRows
    rfl rfl (by decide) (by decide) (by decide) (by decide)

/-- C2, the code at a failing input: a clean row of 10 fields followed by a clean
row of 9 fields.  The reader's `FieldsPerRecord` is 10 after the first row, `ReadAll`
fails with `ErrFieldCount` on the second, and `queryGPU` returns that error and no device
list, where the claim has one record and no error. -/
theorem queryGPU_short_row_fails (pf : Str → Float64) :
    rows "0, GPU-abc123, Tesla T4, 42, 25.10, 70.00, 16384, 1024, 15360, 5\n1, GPU-def456, Tesla T4, 40, 24.00, 70.00, 16384, 0, 16384\n".toList
      = some
        [(["0".toList, "GPU-abc123".toList, "Tesla T4".toList, "42".toList, "25.10".toList,
           "70.00".toList, "16384".toList, "1024".toList, "15360".toList, "5".toList], none),
         (["1".toList, "GPU-def456".toList, "Tesla T4".toList, "40".toList, "24.00".toList,
           "70.00".toList, "16384".toList, "0".toList, "16384".toList], none)] ∧
    queryGPU pf
      { lookPath := none, verOut := [],
        mainOut := ("0, GPU-abc123, Tesla T4, 42, 25.10, 70.00, 16384, 1024, 15360, 5\n1, GPU-def456, Tesla T4, 40, 24.00, 70.00, 16384, 0, 16384\n".toList, none),
        procOut := [] }
      = some (none, some (.csv .ErrFieldCount)) :=
  ⟨by decide, rfl⟩

/-- C3, the code at a failing input: a row of 4 fields followed by a clean row of 5
fields.  The first row sets the reader's `FieldsPerRecord` to 4, the second row is then
read with `ErrFieldCount` and skipped, and the table is empty, where the claim has one
process record. -/
theorem parseProc_first_row_short :
    rows "GPU-abc123, Tesla T4, 4242, python\nGPU-abc123, Tesla T4, 4243, python3, 512\n".toList
      = some
        [(["GPU-abc123".toList, "Tesla T4".toList, "4242".toList, "python".toList], none),
         (["GPU-abc123".toList, "Tesla T4".toList, "4243".toList, "python3".toList,
           "512".toList], none)] ∧
    parseProc "GPU-abc123, Tesla T4, 4242, python\nGPU-abc123, Tesla T4, 4243, python3, 512\n".toList
      = some [] := by
  decide

/-- C5, as the claim states it, fails: for the device row of the specification and
an empty process payload, the UUID is not a key of the table, the process list of the
record is the nil slice (not an empty non-nil one), and `processes` is not among the
members written for the record. -/
theorem queryGPU_no_processes_counterexample :
    parseProc [] = some [] ∧
    ∃ g, queryGPU noFloat (gpuEnvOf [] specDeviceRow []) = some (some [g], none) ∧
      mapGet [] g.UUID = none ∧ g.Processes = none ∧ g.Processes ≠ some [] ∧
      "processes".toList ∉ g.jsonKeys := by
  refine ⟨rfl, _, rfl, ?_⟩
  decide

theorem processes_key_omitted (g : GPUInfo) (h : sliceElems g.Processes = []) :
    "processes".toList ∉ g.jsonKeys := by
  unfold GPUInfo.jsonKeys
  rw [h]
  intro hmem
  simp only [List.length_nil, if_true, List.append_nil, List.mem_append] at hmem
  rcases hmem with (hmem | hmem) | hmem
  · revert hmem; decide
  · split at hmem
    · cases hmem
    · revert hmem; decide
  · split at hmem
    · cases hmem
    · revert hmem; decide

/-- C5, amended. For every record `queryGPU` returns whose UUID is not a key of the
table of `parseProc`, the process list is the nil slice (of length 0), and the member
`processes`, tagged `omitempty`, is left out of the serialized record. -/
theorem queryGPU_no_processes (pf : Str → Float64) (env : GPUEnv) (gpus : Slice GPUInfo)
    (procMap : ProcMap) (g : GPUInfo) (hq : queryGPU pf env = some (gpus, none))
    (hp : parseProc env.procOut = some procMap) (hg : g ∈ sliceElems gpus)
    (hkey : mapGet procMap g.UUID = none) :
    g.Processes = none ∧ (sliceElems g.Processes).length = 0 ∧
    "processes".toList ∉ g.jsonKeys := by
  have hproc : g.Processes = none := by
    unfold queryGPU at hq
    split at hq
    · simp only [Option.some.injEq, Prod.mk.injEq] at hq
      rw [← hq.1] at hg
      cases hg
    · split at hq
      · cases hq
      · split at hq
        · simp at hq
        · rw [hp] at hq
          simp only at hq
          split at hq
          · cases hq
          · simp at hq
          · simp only [Option.some.injEq, Prod.mk.injEq, and_true] at hq
            rw [← hq, sliceElems_gpuLoop] at hg
            simp only [sliceElems, Option.getD_none, List.nil_append, List.mem_map] at hg
            obtain ⟨rec, _, e⟩ := hg
            subst e
            rw [gpuRow_UUID] at hkey
            rw [gpuRow_Processes, hkey]
            rfl
  refine ⟨hproc, ?_, processes_key_omitted g ?_⟩
  · rw [hproc]; rfl
  · rw [hproc]; rfl

/-- C5, amended, at the device row of the specification with an empty process
payload. -/
theorem queryGPU_no_processes_witness :
    (gpuRow noFloat [] [] [] specDeviceFields).Processes = none ∧
    (sliceElems (gpuRow noFloat [] [] [] specDeviceFields).Processes).length = 0 ∧
    "processes".toList ∉ (gpuRow noFloat [] [] [] specDeviceFields).jsonKeys :=
  queryGPU_no_processes noFloat (gpuEnvOf [] specDeviceRow [])
    (some [gpuRow noFloat [] [] [] specDeviceFields]) []
    (gpuRow noFloat [] [] [] specDeviceFields) rfl rfl (by decide) rfl

/-! ## Lemmas on `strconv.Atoi` -/

theorem ParseInt_cases (s : Str) :
    ParseInt s = (0, some .ErrSyntax) ∨
    ParseInt s = (2 ^ 63 - 1, some .ErrRange) ∨ ParseInt s = (-(2 ^ 63), some .ErrRange) ∨
    (ParseInt s).2 = none := by
  unfold ParseInt
  cases s with
  | nil => exact Or.inl rfl
  | cons c t =>
    simp only
    split
    · exact Or.inl rfl
    · split
      · exact Or.inr (Or.inl rfl)
      · split
        · exact Or.inr (Or.inr (Or.inl rfl))
        · exact Or.inr (Or.inr (Or.inr rfl))

theorem Atoi_cases (s : Str) :
    Atoi s = (0, some .ErrSyntax) ∨
    Atoi s = (2 ^ 63 - 1, some .ErrRange) ∨ Atoi s = (-(2 ^ 63), some .ErrRange) ∨
    (Atoi s).2 = none := by
  unfold Atoi
  simp only
  by_cases hfast : intSize = 64 ∧ 0 < byteLen s ∧ byteLen s < 19
  · rw [if_pos hfast]
    cases s with
    | nil => exact Or.inl rfl
    | cons c t =>
      simp only
      generalize (if c = '-' ∨ c = '+' then t else c :: t) = s1
      by_cases h1 : (c = '-' ∨ c = '+') ∧ s1.length < 1
      · rw [if_pos h1]
        exact Or.inl rfl
      · rw [if_neg h1]
        cases atoiFastLoop s1 0 with
        | none => exact Or.inl rfl
        | some n => exact Or.inr (Or.inr (Or.inr rfl))
  · rw [if_neg hfast]
    exact ParseInt_cases s

theorem atoi_of_ErrSyntax (s : Str) (h : (Atoi (TrimSpace s)).2 = some .ErrSyntax) :
    atoi s = 0 := by
  unfold atoi
  rcases Atoi_cases (TrimSpace s) with e | e | e | e
  · rw [e]
  · rw [e] at h; cases h
  · rw [e] at h; cases h
  · rw [e] at h; cases h

theorem atoi_of_ErrRange (s : Str) (h : (Atoi (TrimSpace s)).2 = some .ErrRange) :
    atoi s = 2 ^ 63 - 1 ∨ atoi s = -(2 ^ 63) := by
  unfold atoi
  rcases Atoi_cases (TrimSpace s) with e | e | e | e
  · rw [e] at h; cases h
  · rw [e]; exact Or.inl rfl
  · rw [e]; exact Or.inr rfl
  · rw [e] at h; cases h

theorem mem_sliceElems_gpuLoop (pf : Str → Float64) (driver cuda : Str) (procMap : ProcMap)
    (records : List (List Str)) (gpus : Slice GPUInfo) (rec : List Str)
    (hrec : rec ∈ records) (hlen : rec.length = 10) :
    gpuRow pf driver cuda procMap rec
      ∈ sliceElems (gpuLoop pf driver cuda procMap records gpus) := by
  rw [sliceElems_gpuLoop]
  apply List.mem_append_right
  apply List.mem_map_of_mem
  exact List.mem_filter.mpr ⟨hrec, by simpa using hlen⟩

theorem gpuRow_ints (pf : Str → Float64) (driver cuda : Str) (procMap : ProcMap)
    (rec : List Str) :
    (gpuRow pf driver cuda procMap rec).Index = atoi (rec.getD 0 []) ∧
    (gpuRow pf driver cuda procMap rec).Temp = atoi (rec.getD 3 []) ∧
    (gpuRow pf driver cuda procMap rec).MemTotalMB = atoi (rec.getD 6 []) ∧
    (gpuRow pf driver cuda procMap rec).MemUsedMB = atoi (rec.getD 7 []) ∧
    (gpuRow pf driver cuda procMap rec).MemFreeMB = atoi (rec.getD 8 []) ∧
    (gpuRow pf driver cuda procMap rec).UtilPct = atoi (rec.getD 9 []) := by
  simp only [gpuRow]
  split <;> exact ⟨rfl, rfl, rfl, rfl, rfl, rfl⟩

theorem checkFieldCount_five (fields : List Str) (err : Option CsvError) :
    (checkFieldCount 5 fields err).2 = 5 ∧
    ((checkFieldCount 5 fields err).1 = none ↔ err = none ∧ fields.length = 5) := by
  unfold checkFieldCount
  simp only [show (5 : Int) > 0 by decide, if_true]
  refine ⟨trivial, ?_⟩
  by_cases hl : fields.length = 5
  · simp [hl]
  · have : ¬ ((fields.length : Int) = 5) := by omega
    cases err <;> simp [hl, this]

theorem procRows_five (rs : List (List Str × Option CsvError)) (res : ProcMap) :
    procRows 5 rs res
      = ((rs.filter (fun r => decide (r.2 = none ∧ r.1.length = 5))).map Prod.fst).foldl
          addProc res := by
  induction rs generalizing res with
  | nil => rfl
  | cons r rest ih =>
    obtain ⟨fields, err⟩ := r
    obtain ⟨h2, h1⟩ := checkFieldCount_five fields err
    simp only [procRows, h2]
    rw [List.filter_cons]
    by_cases hc : err = none ∧ fields.length = 5
    · have e1 : (checkFieldCount 5 fields err).1 = none := h1.mpr hc
      rw [if_neg (by simp [e1, hc.2]), if_pos (by simpa using hc)]
      simp only [List.map_cons, List.foldl_cons]
      exact ih _
    · have e1 : ¬ (checkFieldCount 5 fields err).1 = none := fun e => hc (h1.mp e)
      have e2 : (checkFieldCount 5 fields err).1 ≠ none ∨ fields.length ≠ 5 := Or.inl e1
      rw [if_pos e2, if_neg (by simpa using hc)]
      exact ih _

theorem procRows_first_clean (r0 : List Str × Option CsvError)
    (rs : List (List Str × Option CsvError)) (h0 : r0.2 = none ∧ r0.1.length = 5) :
    procRows 0 (r0 :: rs) []
      = (((r0 :: rs).filter (fun r => decide (r.2 = none ∧ r.1.length = 5))).map Prod.fst).foldl
          addProc [] := by
  obtain ⟨fields, err⟩ := r0
  simp only at h0
  obtain ⟨he, hl⟩ := h0
  subst he
  have hc : checkFieldCount 0 fields none = (none, 5) := by
    simp [checkFieldCount, hl]
  rw [List.filter_cons, if_pos (by simp [hl])]
  simp only [procRows, hc, hl, List.map_cons, List.foldl_cons]
  simp only [ne_eq, not_true_eq_false, or_self, if_false]
  exact procRows_five rs _

theorem mem_table_of_mem (recs : List (List Str)) (rec : List Str) (h : rec ∈ recs) :
    procOfRecord rec
      ∈ sliceElems ((mapGet (recs.foldl addProc []) (TrimSpace (rec.getD 0 []))).getD none) := by
  rw [(mapGet_foldl_addProc recs [] _).1]
  apply List.mem_append_right
  unfold procsFor
  apply List.mem_map_of_mem
  exact List.mem_filter.mpr ⟨h, by simp⟩

/-! ## Lemmas: `atoi` on decimal texts -/

theorem isDigit_bounds (c : Char) (h : isDigit c = true) : 0x30 ≤ c.toNat ∧ c.toNat ≤ 0x39 := by
  simpa [isDigit] using h

theorem isDigit_not_space (c : Char) (h : isDigit c = true) : isSpace c = false := by
  have hb := isDigit_bounds c h
  unfold isSpace
  simp only [Bool.or_eq_false_iff, beq_eq_false_iff_ne, Bool.and_eq_false_iff,
    decide_eq_false_iff_not]
  omega

theorem isDigit_ne_sign (c : Char) (h : isDigit c = true) : c ≠ '-' ∧ c ≠ '+' := by
  constructor <;> (intro e; subst e; revert h; decide)

theorem foldl_decimal_ge (t : Str) (n : Nat) :
    n ≤ t.foldl (fun n c => n * 10 + (c.toNat - 0x30)) n := by
  induction t generalizing n with
  | nil => exact Nat.le_refl _
  | cons c t ih =>
    simp only [List.foldl_cons]
    exact Nat.le_trans (by omega) (ih _)

theorem parseUintLoop_digits (t : Str) (n : Nat) (hd : ∀ c ∈ t, isDigit c = true)
    (hv : t.foldl (fun n c => n * 10 + (c.toNat - 0x30)) n ≤ 2 ^ 63) :
    parseUintLoop t n = (t.foldl (fun n c => n * 10 + (c.toNat - 0x30)) n, none) := by
  induction t generalizing n with
  | nil => rfl
  | cons c t ih =>
    have hb := isDigit_bounds c (hd c (List.mem_cons_self _ _))
    simp only [List.foldl_cons] at hv ⊢
    have hge := foldl_decimal_ge t (n * 10 + (c.toNat - 0x30))
    have hn : n * 10 + (c.toNat - 0x30) ≤ 2 ^ 63 := Nat.le_trans hge hv
    unfold parseUintLoop
    rw [if_pos hb]
    simp only
    have h1 : ¬ (n ≥ (2 ^ 64 - 1) / 10 + 1) := by omega
    have h2 : n * 10 % 2 ^ 64 = n * 10 := Nat.mod_eq_of_lt (by omega)
    have h3 : (n * 10 + (c.toNat - 0x30)) % 2 ^ 64 = n * 10 + (c.toNat - 0x30) :=
      Nat.mod_eq_of_lt (by omega)
    rw [if_neg h1, h2, h3]
    have h4 : ¬ (n * 10 + (c.toNat - 0x30) < n * 10 ∨ n * 10 + (c.toNat - 0x30) > 2 ^ 64 - 1) := by
      omega
    rw [if_neg h4]
    exact ih _ (fun x hx => hd x (List.mem_cons_of_mem _ hx)) hv

theorem atoiFastLoop_digits (t : Str) (n : Nat) (hd : ∀ c ∈ t, isDigit c = true) :
    atoiFastLoop t (n : Int)
      = some ((t.foldl (fun n c => n * 10 + (c.toNat - 0x30)) n : Nat) : Int) := by
  induction t generalizing n with
  | nil => rfl
  | cons c t ih =>
    have hb := isDigit_bounds c (hd c (List.mem_cons_self _ _))
    unfold atoiFastLoop
    rw [if_pos hb]
    simp only [List.foldl_cons]
    rw [← ih (n * 10 + (c.toNat - 0x30)) (fun x hx => hd x (List.mem_cons_of_mem _ hx))]
    congr 1

theorem ParseUint_digits (t : Str) (hne : t ≠ []) (hd : ∀ c ∈ t, isDigit c = true)
    (hv : decimalValue t ≤ 2 ^ 63) : ParseUint t = (decimalValue t, none) := by
  unfold ParseUint
  cases t with
  | nil => exact absurd rfl hne
  | cons c t =>
    simp only [List.isEmpty_cons, Bool.false_eq_true, if_false]
    exact parseUintLoop_digits _ 0 hd hv

theorem Atoi_digits (t : Str) (hne : t ≠ []) (hd : ∀ c ∈ t, isDigit c = true)
    (hv : decimalValue t < 2 ^ 63) : Atoi t = ((decimalValue t : Int), none) := by
  cases t with
  | nil => exact absurd rfl hne
  | cons c t1 =>
    obtain ⟨hm, hp⟩ := isDigit_ne_sign c (hd c (List.mem_cons_self _ _))
    have hs : ¬ (c = '-' ∨ c = '+') := fun h => h.elim hm hp
    have hs2 : ¬ (c = '+' ∨ c = '-') := fun h => h.elim hp hm
    unfold Atoi
    simp only
    by_cases hfast : intSize = 64 ∧ 0 < byteLen (c :: t1) ∧ byteLen (c :: t1) < 19
    · rw [if_pos hfast]
      simp only [if_neg hs, hs, false_and, if_false]
      have := atoiFastLoop_digits (c :: t1) 0 hd
      simp only [Nat.cast_zero] at this
      rw [this]
      simp only [if_neg hm]
      rfl
    · rw [if_neg hfast]
      unfold ParseInt
      simp only [if_neg hs2, ParseUint_digits (c :: t1) hne hd (Nat.le_of_lt hv)]
      have hc : ¬ (decimalValue (c :: t1) ≥ 2 ^ (intSize - 1)) := by
        simp only [intSize]; omega
      simp [hm, hc]

theorem Atoi_signed_digits (sign : Char) (t : Str) (hsign : sign = '-' ∨ sign = '+')
    (hne : t ≠ []) (hd : ∀ c ∈ t, isDigit c = true)
    (hv : if sign = '-' then decimalValue t ≤ 2 ^ 63 else decimalValue t < 2 ^ 63) :
    Atoi (sign :: t)
      = (if sign = '-' then -(decimalValue t : Int) else (decimalValue t : Int), none) := by
  have hv1 : decimalValue t ≤ 2 ^ 63 := by
    split at hv
    · exact hv
    · exact Nat.le_of_lt hv
  have hs : sign = '-' ∨ sign = '+' := hsign
  have hs2 : sign = '+' ∨ sign = '-' := hsign.symm
  have hlen : ¬ (t.length < 1) := by
    cases t with
    | nil => exact absurd rfl hne
    | cons a u => simp
  unfold Atoi
  simp only
  by_cases hfast : intSize = 64 ∧ 0 < byteLen (sign :: t) ∧ byteLen (sign :: t) < 19
  · rw [if_pos hfast]
    simp only [if_pos hs, hlen, and_false, if_false]
    have := atoiFastLoop_digits t 0 hd
    simp only [Nat.cast_zero] at this
    rw [this]
    rfl
  · rw [if_neg hfast]
    unfold ParseInt
    simp only [if_pos hs2, ParseUint_digits t hne hd hv1]
    by_cases hm : sign = '-'
    · rw [if_pos hm] at hv
      have hc : ¬ (decimalValue t > 2 ^ (intSize - 1)) := by
        simp only [intSize]; omega
      simp [hm, hc]
    · rw [if_neg hm] at hv
      have hc : ¬ (decimalValue t ≥ 2 ^ (intSize - 1)) := by
        simp only [intSize]; omega
      simp [hm, hc]

theorem dropWhile_all {p : Char → Bool} (ws l : Str) (h : ∀ c ∈ ws, p c = true) :
    (ws ++ l).dropWhile p = l.dropWhile p := by
  induction ws with
  | nil => rfl
  | cons a t ih =>
    simp only [List.cons_append, List.dropWhile, h a (List.mem_cons_self _ _)]
    exact ih (fun c hc => h c (List.mem_cons_of_mem _ hc))

theorem TrimSpace_pad (ws t ws1 : Str) (hws : ∀ c ∈ ws, isSpace c = true)
    (hws1 : ∀ c ∈ ws1, isSpace c = true) (hne : t ≠ [])
    (hhead : ∀ c, t.head? = some c → isSpace c = false)
    (hlast : ∀ c, t.getLast? = some c → isSpace c = false) :
    TrimSpace (ws ++ t ++ ws1) = t := by
  unfold TrimSpace
  rw [List.append_assoc, dropWhile_all ws _ hws]
  have e1 : (t ++ ws1).dropWhile isSpace = t ++ ws1 := by
    cases t with
    | nil => exact absurd rfl hne
    | cons a u => exact dropWhile_head_false _ (fun c hc => hhead c (by simpa using hc))
  rw [e1, List.reverse_append,
    dropWhile_all ws1.reverse _ (fun c hc => hws1 c (List.mem_reverse.mp hc)),
    dropWhile_head_false t.reverse (fun c hc => hlast c (by rwa [List.head?_reverse] at hc)),
    List.reverse_reverse]

theorem TrimSpace_pad_digits (ws t ws1 pre : Str) (hws : ∀ c ∈ ws, isSpace c = true)
    (hws1 : ∀ c ∈ ws1, isSpace c = true) (hne : t ≠ []) (hd : ∀ c ∈ t, isDigit c = true)
    (hpre : ∀ c ∈ pre, isSpace c = false) :
    TrimSpace (ws ++ (pre ++ t) ++ ws1) = pre ++ t := by
  have hall : ∀ c ∈ pre ++ t, isSpace c = false := by
    intro c hc
    rcases List.mem_append.mp hc with h | h
    · exact hpre c h
    · exact isDigit_not_space c (hd c h)
  apply TrimSpace_pad ws (pre ++ t) ws1 hws hws1 (by simp [hne])
  · intro c hc
    exact hall c (List.mem_of_mem_head? hc)
  · intro c hc
    exact hall c (List.mem_of_getLast?_eq_some hc)

theorem atoi_decimal (ws t ws1 : Str) (hws : ∀ c ∈ ws, isSpace c = true)
    (hws1 : ∀ c ∈ ws1, isSpace c = true) (hne : t ≠ []) (hd : ∀ c ∈ t, isDigit c = true)
    (hv : decimalValue t < 2 ^ 63) :
    atoi (ws ++ t ++ ws1) = (decimalValue t : Int) := by
  have e := TrimSpace_pad_digits ws t ws1 [] hws hws1 hne hd (by simp)
  simp only [List.nil_append] at e
  unfold atoi
  rw [e, Atoi_digits t hne hd hv]

theorem atoi_minus_decimal (ws t ws1 : Str) (hws : ∀ c ∈ ws, isSpace c = true)
    (hws1 : ∀ c ∈ ws1, isSpace c = true) (hne : t ≠ []) (hd : ∀ c ∈ t, isDigit c = true)
    (hv : decimalValue t ≤ 2 ^ 63) :
    atoi (ws ++ '-' :: t ++ ws1) = -(decimalValue t : Int) := by
  have e := TrimSpace_pad_digits ws t ws1 ['-'] hws hws1 hne hd (by decide)
  simp only [List.singleton_append] at e
  unfold atoi
  rw [e, Atoi_signed_digits '-' t (Or.inl rfl) hne hd (by simpa using hv)]
  simp

/-! ## Lemmas: the csv reader on plain rows -/

theorem parseFieldLoop_unquoted (fuel : Nat) (line0 rest : Str) (fields : List Str)
    (hq : (line0.dropWhile isSpace).head? ≠ some '"') :
    parseFieldLoop (fuel + 1) line0 rest fields =
      (let line := line0.dropWhile isSpace
       let pre := (line.span (fun c => c ≠ ',')).1
       let post := (line.span (fun c => c ≠ ',')).2
       let field := if post.isEmpty then pre.take (pre.length - lengthNL pre) else pre
       if '"' ∈ field then some (fields, some .ErrBareQuote, rest)
       else
         match post with
         | [] => some (fields ++ [field], none, rest)
         | _ :: l => parseFieldLoop fuel l rest (fields ++ [field])) := by
  rw [parseFieldLoop]
  split
  · next line1 h => rw [h] at hq; exact absurd rfl hq
  · rfl

theorem span_no_sep (p : Char → Bool) (f : Str) (h : ∀ c ∈ f, p c = true) :
    f.span p = (f, []) := by
  rw [List.span_eq_take_drop, List.takeWhile_eq_self_iff.mpr h]
  congr 1
  have := @List.dropWhile_append_of_pos _ p f [] h
  simpa using this

theorem span_append_sep (p : Char → Bool) (f tail : Str) (sep : Char)
    (h : ∀ c ∈ f, p c = true) (hsep : p sep = false) :
    (f ++ sep :: tail).span p = (f, sep :: tail) := by
  rw [List.span_eq_take_drop, List.takeWhile_append_of_pos h, List.dropWhile_append_of_pos h]
  simp [hsep]

theorem strip_nl (f nl : Str) (hnl : nl = [] ∨ nl = ['\n']) (hf : '\n' ∉ f) :
    (f ++ nl).take ((f ++ nl).length - lengthNL (f ++ nl)) = f := by
  rcases hnl with e | e
  · subst e
    have h0 : lengthNL (f ++ []) = 0 := by
      unfold lengthNL
      rw [List.append_nil, if_neg]
      intro h
      exact hf (List.mem_of_getLast?_eq_some h)
    rw [h0]
    simp
  · subst e
    have h1 : lengthNL (f ++ ['\n']) = 1 := by
      unfold lengthNL
      rw [if_pos (by simp)]
    rw [h1]
    simp

theorem parseFieldLoop_plain_last (fuel : Nat) (line0 rest : Str) (acc : List Str)
    (f nl : Str) (hD : line0.dropWhile isSpace = f ++ nl) (hnl : nl = [] ∨ nl = ['\n'])
    (hf : ∀ c ∈ f, c ≠ ',' ∧ c ≠ '"' ∧ c ≠ '\n') :
    parseFieldLoop (fuel + 1) line0 rest acc = some (acc ++ [f], none, rest) := by
  have hall : ∀ c ∈ f ++ nl, c ≠ ',' ∧ c ≠ '"' := by
    intro c hc
    rcases List.mem_append.mp hc with h | h
    · exact ⟨(hf c h).1, (hf c h).2.1⟩
    · rcases hnl with e | e
      · subst e; cases h
      · subst e
        have : c = '\n' := by simpa using h
        subst this
        exact ⟨by decide, by decide⟩
  have hq : (line0.dropWhile isSpace).head? ≠ some '"' := by
    rw [hD]
    intro h
    exact (hall _ (List.mem_of_mem_head? h)).2 rfl
  rw [parseFieldLoop_unquoted fuel line0 rest acc hq]
  simp only [hD]
  rw [span_no_sep _ (f ++ nl) (fun c hc => by simpa using (hall c hc).1)]
  simp only [List.isEmpty_nil, if_true]
  rw [strip_nl f nl hnl (fun h => (hf _ h).2.2 rfl)]
  rw [if_neg (fun h => (hf _ h).2.1 rfl)]

theorem parseFieldLoop_plain_next (fuel : Nat) (line0 rest : Str) (acc : List Str)
    (f tail : Str) (hD : line0.dropWhile isSpace = f ++ ',' :: tail)
    (hf : ∀ c ∈ f, c ≠ ',' ∧ c ≠ '"') :
    parseFieldLoop (fuel + 1) line0 rest acc = parseFieldLoop fuel tail rest (acc ++ [f]) := by
  have hq : (line0.dropWhile isSpace).head? ≠ some '"' := by
    rw [hD]
    intro h
    cases f with
    | nil => simp at h
    | cons a u =>
      simp only [List.cons_append, List.head?_cons, Option.some.injEq] at h
      exact (hf a (List.mem_cons_self _ _)).2 h
  rw [parseFieldLoop_unquoted fuel line0 rest acc hq]
  simp only [hD]
  rw [span_append_sep _ f tail ',' (fun c hc => by simpa using (hf c hc).1) (by simp)]
  simp only [List.isEmpty_cons, Bool.false_eq_true, if_false]
  rw [if_neg (fun h => (hf _ h).2 rfl)]

theorem plainField_chars (f : Str) (h : plainField f = true) :
    ∀ c ∈ f, c ≠ ',' ∧ c ≠ '"' ∧ c ≠ '\n' ∧ c ≠ '\r' := by
  intro c hc
  unfold plainField at h
  simp only [Bool.and_eq_true, List.all_eq_true, bne_iff_ne, ne_eq] at h
  have := h.1 c hc
  exact ⟨this.1.1.1, this.1.1.2, this.1.2, this.2⟩

theorem plainField_head (f : Str) (h : plainField f = true) :
    ∀ c, f.head? = some c → isSpace c = false := by
  intro c hc
  unfold plainField at h
  simp only [Bool.and_eq_true] at h
  have h2 := h.2
  rw [hc] at h2
  simpa using h2

theorem dropWhile_plain (ws f tail : Str) (hws : ∀ c ∈ ws, isSpace c = true)
    (hf : plainField f = true) (htail : ∀ c, tail.head? = some c → isSpace c = false) :
    (ws ++ f ++ tail).dropWhile isSpace = f ++ tail := by
  rw [List.append_assoc, dropWhile_all ws _ hws]
  apply dropWhile_head_false
  intro c hc
  cases f with
  | nil => exact htail c (by simpa using hc)
  | cons a u => exact plainField_head _ hf c (by simpa using hc)

theorem parseFieldLoop_joinRow (fields : List Str) (nl : Str) (hnl : nl = [] ∨ nl = ['\n'])
    (hne : fields ≠ []) (hpl : ∀ f ∈ fields, plainField f = true) :
    ∀ (fuel : Nat) (ws rest : Str) (acc : List Str), fields.length ≤ fuel →
      (∀ c ∈ ws, isSpace c = true) →
      parseFieldLoop fuel (ws ++ joinRow fields ++ nl) rest acc
        = some (acc ++ fields, none, rest) := by
  induction fields with
  | nil => exact absurd rfl hne
  | cons f more ih =>
    intro fuel ws rest acc hfuel hws
    have hf := hpl f (List.mem_cons_self _ _)
    have hfc := plainField_chars f hf
    cases fuel with
    | zero => simp at hfuel
    | succ k =>
      cases more with
      | nil =>
        simp only [joinRow]
        by_cases hf0 : f = []
        · subst hf0
          have hD : (ws ++ [] ++ nl).dropWhile isSpace = [] ++ [] := by
            rw [List.append_nil, List.nil_append]
            have hall : ∀ c ∈ ws ++ nl, isSpace c = true := by
              intro c hc
              rcases List.mem_append.mp hc with h | h
              · exact hws c h
              · rcases hnl with e | e
                · subst e; cases h
                · subst e
                  have : c = '\n' := by simpa using h
                  subst this
                  decide
            have := dropWhile_all (ws ++ nl) [] hall
            simpa using this
          exact parseFieldLoop_plain_last k _ rest acc [] [] hD (Or.inl rfl) (by simp)
        · have hD : (ws ++ f ++ nl).dropWhile isSpace = f ++ nl := by
            rw [List.append_assoc, dropWhile_all ws _ hws]
            apply dropWhile_head_false
            intro c hc
            cases f with
            | nil => exact absurd rfl hf0
            | cons a u => exact plainField_head _ hf c (by simpa using hc)
          exact parseFieldLoop_plain_last k _ rest acc f nl hD hnl
            (fun c hc => ⟨(hfc c hc).1, (hfc c hc).2.1, (hfc c hc).2.2.1⟩)
      | cons g more1 =>
        simp only [joinRow]
        have hD : (ws ++ (f ++ ',' :: ' ' :: joinRow (g :: more1)) ++ nl).dropWhile isSpace
            = f ++ ',' :: ([' '] ++ joinRow (g :: more1) ++ nl) := by
          have e : ws ++ (f ++ ',' :: ' ' :: joinRow (g :: more1)) ++ nl
              = ws ++ f ++ (',' :: ([' '] ++ joinRow (g :: more1) ++ nl)) := by simp
          rw [e]
          exact dropWhile_plain ws f _ hws hf (by intro c hc; simp at hc; subst hc; decide)
        rw [parseFieldLoop_plain_next k _ rest acc f _ hD
          (fun c hc => ⟨(hfc c hc).1, (hfc c hc).2.1⟩)]
        rw [ih (by simp) (fun x hx => hpl x (List.mem_cons_of_mem _ hx)) k [' '] rest
          (acc ++ [f]) (by simpa using hfuel) (by decide)]
        simp

theorem readSlice_line (t rest : Str) (h : '\n' ∉ t) :
    readSlice (t ++ '\n' :: rest) = (t ++ ['\n'], rest) := by
  induction t with
  | nil => simp [readSlice]
  | cons a u ih =>
    have ha : a ≠ '\n' := fun e => h (e ▸ List.mem_cons_self _ _)
    have hu : '\n' ∉ u := fun e => h (List.mem_cons_of_mem _ e)
    simp [readSlice, ha, ih hu]

theorem readSlice_last (t : Str) (h : '\n' ∉ t) : readSlice t = (t, []) := by
  induction t with
  | nil => rfl
  | cons a u ih =>
    have ha : a ≠ '\n' := fun e => h (e ▸ List.mem_cons_self _ _)
    have hu : '\n' ∉ u := fun e => h (List.mem_cons_of_mem _ e)
    simp [readSlice, ha, ih hu]

theorem readLine_line (t rest : Str) (hn : '\n' ∉ t) (hr : '\r' ∉ t) :
    readLine (t ++ '\n' :: rest) = (t ++ ['\n'], false, rest) := by
  unfold readLine
  rw [readSlice_line t rest hn]
  have h1 : (t ++ ['\n']).isEmpty = false := by cases t <;> rfl
  have h2 : (t ++ ['\n']).getLast? = some '\n' := by simp
  have h3 : dropFinalCR (t ++ ['\n']) = t ++ ['\n'] := by
    unfold dropFinalCR
    rw [if_neg (by simp [h2])]
  have h4 : normalizeCRLF (t ++ ['\n']) = t ++ ['\n'] := by
    unfold normalizeCRLF
    rw [if_neg]
    intro h
    have h5 := h.2.1
    have h6 : (t ++ ['\n']).length - 2 < t.length := by
      have := h.1
      simp only [List.length_append, List.length_singleton] at this ⊢
      omega
    rw [List.get?_eq_getElem?, List.getElem?_append_left h6] at h5
    exact hr (List.getElem?_mem h5)
  simp only [h1, Bool.false_eq_true, if_false, h3, h4]

theorem readLine_last (t : Str) (hne : t ≠ []) (hn : '\n' ∉ t) (hr : '\r' ∉ t) :
    readLine t = (t, false, []) := by
  unfold readLine
  rw [readSlice_last t hn]
  have h1 : t.isEmpty = false := by cases t with
    | nil => exact absurd rfl hne
    | cons a u => rfl
  have h2 : t.getLast? ≠ some '\r' := fun h => hr (List.mem_of_getLast?_eq_some h)
  have h3 : dropFinalCR t = t := by
    unfold dropFinalCR
    rw [if_neg (fun h => h2 h.2)]
  have h4 : normalizeCRLF t = t := by
    unfold normalizeCRLF
    rw [if_neg]
    intro h
    have h5 := h.2.2
    rw [List.get?_eq_getElem?] at h5
    exact hn (List.getElem?_mem h5)
  simp only [h1, Bool.false_eq_true, if_false, h3, h4]

theorem joinRow_chars (fields : List Str) (hpl : ∀ f ∈ fields, plainField f = true) :
    ∀ c ∈ joinRow fields, c ≠ '\n' ∧ c ≠ '\r' := by
  induction fields with
  | nil => intro c hc; cases hc
  | cons f more ih =>
    have hf := plainField_chars f (hpl f (List.mem_cons_self _ _))
    cases more with
    | nil =>
      intro c hc
      exact ⟨(hf c hc).2.2.1, (hf c hc).2.2.2⟩
    | cons g more1 =>
      intro c hc
      simp only [joinRow, List.mem_append, List.mem_cons] at hc
      rcases hc with h | h | h | h
      · exact ⟨(hf c h).2.2.1, (hf c h).2.2.2⟩
      · subst h; exact ⟨by decide, by decide⟩
      · subst h; exact ⟨by decide, by decide⟩
      · exact ih (fun x hx => hpl x (List.mem_cons_of_mem _ hx)) c h

theorem length_le_joinRow (fields : List Str) : fields.length ≤ (joinRow fields).length + 1 := by
  induction fields with
  | nil => simp
  | cons f more ih =>
    cases more with
    | nil => simp
    | cons g more1 =>
      simp only [joinRow, List.length_cons, List.length_append] at ih ⊢
      omega

theorem scanRecord_row (fields : List Str) (rest : Str) (hj : joinRow fields ≠ [])
    (hpl : ∀ f ∈ fields, plainField f = true) :
    scanRecord (joinRow fields ++ '\n' :: rest) = some (some (fields, none, rest)) := by
  have hc := joinRow_chars fields hpl
  have hline := readLine_line (joinRow fields) rest (fun h => (hc _ h).1 rfl)
    (fun h => (hc _ h).2 rfl)
  have hne : fields ≠ [] := by
    intro e; subst e; exact hj rfl
  have hlen : ¬ ((joinRow fields ++ ['\n']).length = lengthNL (joinRow fields ++ ['\n'])) := by
    have h1 : lengthNL (joinRow fields ++ ['\n']) = 1 := by
      unfold lengthNL
      rw [if_pos (by simp)]
    rw [h1]
    have : 0 < (joinRow fields).length := List.length_pos.mpr hj
    simp only [List.length_append, List.length_singleton]
    omega
  unfold scanRecord
  rw [skipEmptyLines]
  simp only [hline, Bool.false_eq_true, if_false, if_neg hlen]
  have hfuel : fields.length ≤ (joinRow fields ++ ['\n']).length + rest.length + 1 := by
    have := length_le_joinRow fields
    simp only [List.length_append, List.length_singleton]
    omega
  have := parseFieldLoop_joinRow fields ['\n'] (Or.inr rfl) hne hpl _ [] rest [] hfuel
    (by simp)
  simp only [List.nil_append] at this
  rw [this]
  rfl

theorem scanRecord_last_row (fields : List Str) (hj : joinRow fields ≠ [])
    (hpl : ∀ f ∈ fields, plainField f = true) :
    scanRecord (joinRow fields) = some (some (fields, none, [])) := by
  have hc := joinRow_chars fields hpl
  have hline := readLine_last (joinRow fields) hj (fun h => (hc _ h).1 rfl)
    (fun h => (hc _ h).2 rfl)
  have hne : fields ≠ [] := by
    intro e; subst e; exact hj rfl
  have hlen : ¬ ((joinRow fields).length = lengthNL (joinRow fields)) := by
    have h0 : lengthNL (joinRow fields) = 0 := by
      unfold lengthNL
      rw [if_neg]
      intro h
      exact (hc _ (List.mem_of_getLast?_eq_some h)).1 rfl
    rw [h0]
    have : 0 < (joinRow fields).length := List.length_pos.mpr hj
    omega
  unfold scanRecord
  rw [skipEmptyLines]
  simp only [hline, Bool.false_eq_true, if_false, if_neg hlen]
  have hfuel : fields.length ≤ (joinRow fields).length + ([] : Str).length + 1 := by
    have := length_le_joinRow fields
    simp only [List.length_nil]
    omega
  have := parseFieldLoop_joinRow fields [] (Or.inl rfl) hne hpl _ [] [] [] hfuel (by simp)
  simp only [List.nil_append, List.append_nil] at this
  rw [this]
  rfl

theorem scanRecord_nil : scanRecord [] = some none := by decide

theorem rowsLoop_payloadOf (rs : List (List Str))
    (h : ∀ r ∈ rs, joinRow r ≠ [] ∧ ∀ f ∈ r, plainField f = true) (n : Nat)
    (hn : rs.length < n) :
    rowsLoop n (payloadOf rs) = some (rs.map (fun r => (r, none))) := by
  induction rs generalizing n with
  | nil =>
    cases n with
    | zero => simp at hn
    | succ k => simp [rowsLoop, payloadOf, scanRecord_nil]
  | cons r more ih =>
    cases n with
    | zero => simp at hn
    | succ k =>
      obtain ⟨hj, hpl⟩ := h r (List.mem_cons_self _ _)
      simp only [rowsLoop, payloadOf, scanRecord_row r _ hj hpl]
      rw [ih (fun x hx => h x (List.mem_cons_of_mem _ hx)) k (by simpa using hn)]
      rfl

theorem length_le_payloadOf (rs : List (List Str)) : rs.length ≤ (payloadOf rs).length := by
  induction rs with
  | nil => simp
  | cons r more ih =>
    simp only [payloadOf, List.length_cons, List.length_append]
    omega

theorem rows_payloadOf (rs : List (List Str))
    (h : ∀ r ∈ rs, joinRow r ≠ [] ∧ ∀ f ∈ r, plainField f = true) :
    rows (payloadOf rs) = some (rs.map (fun r => (r, none))) :=
  rowsLoop_payloadOf rs h _ (Nat.lt_succ_of_le (length_le_payloadOf rs))

theorem rows_single_row (fields : List Str) (hj : joinRow fields ≠ [])
    (hpl : ∀ f ∈ fields, plainField f = true) :
    rows (joinRow fields) = some [(fields, none)] := by
  unfold rows
  have hlen : 0 < (joinRow fields).length := List.length_pos.mpr hj
  obtain ⟨k, hk⟩ : ∃ k, (joinRow fields).length + 1 = k + 2 := ⟨(joinRow fields).length - 1, by omega⟩
  rw [hk]
  simp [rowsLoop, scanRecord_last_row fields hj hpl, scanRecord_nil]

/-! ## Lemmas: the loops of the csv reader end within their bounds -/

theorem readSlice_length (inp : Str) :
    (readSlice inp).1.length + (readSlice inp).2.length = inp.length := by
  induction inp with
  | nil => rfl
  | cons c t ih =>
    unfold readSlice
    by_cases h : c = '\n'
    · simp only [if_pos h, List.length_cons, List.length_nil]
      omega
    · simp only [if_neg h, List.length_cons]
      omega

theorem dropFinalCR_length (raw : Str) : (dropFinalCR raw).length ≤ raw.length := by
  unfold dropFinalCR
  split
  · simp only [List.length_dropLast]; omega
  · exact Nat.le_refl _

theorem normalizeCRLF_length (line : Str) : (normalizeCRLF line).length ≤ line.length := by
  unfold normalizeCRLF
  split
  · next h =>
    have := h.1
    simp only [List.length_append, List.length_take, List.length_singleton]
    omega
  · exact Nat.le_refl _

theorem readLine_length (inp : Str) :
    (readLine inp).1.length + (readLine inp).2.2.length ≤ inp.length ∧
    ((readLine inp).2.1 = false → (readLine inp).2.2.length < inp.length) := by
  have hs := readSlice_length inp
  unfold readLine
  simp only
  by_cases h : (readSlice inp).1.isEmpty = true
  · rw [if_pos h]
    simp only [List.length_nil, Nat.zero_add]
    exact ⟨by omega, fun e => by cases e⟩
  · rw [if_neg h]
    have hpos : 0 < (readSlice inp).1.length := by
      cases hr : (readSlice inp).1 with
      | nil => rw [hr] at h; exact absurd rfl h
      | cons a u => simp
    have h1 := normalizeCRLF_length (dropFinalCR (readSlice inp).1)
    have h2 := dropFinalCR_length (readSlice inp).1
    exact ⟨by simp only; omega, fun _ => by simp only; omega⟩

theorem skipEmptyLines_total (fuel : Nat) (inp : Str) (h : inp.length < fuel) :
    ∃ r, skipEmptyLines fuel inp = some r ∧
      ∀ line rest, r = some (line, rest) →
        line.length + rest.length ≤ inp.length ∧ rest.length < inp.length := by
  induction fuel generalizing inp with
  | zero => exact absurd h (Nat.not_lt_zero _)
  | succ n ih =>
    obtain ⟨h1, h2⟩ := readLine_length inp
    unfold skipEmptyLines
    simp only
    by_cases he : (readLine inp).2.1 = true
    · rw [if_pos he]
      exact ⟨none, rfl, fun _ _ e => by cases e⟩
    · rw [if_neg he]
      have h3 := h2 (by simpa using he)
      by_cases hl : (readLine inp).1.length = lengthNL (readLine inp).1
      · rw [if_pos hl]
        obtain ⟨r, hr, hb⟩ := ih (readLine inp).2.2 (by omega)
        refine ⟨r, hr, fun line rest e => ?_⟩
        obtain ⟨b1, b2⟩ := hb line rest e
        exact ⟨by omega, by omega⟩
      · rw [if_neg hl]
        refine ⟨_, rfl, fun line rest e => ?_⟩
        simp only [Option.some.injEq, Prod.mk.injEq] at e
        obtain ⟨e1, e2⟩ := e
        subst e1 e2
        exact ⟨h1, h3⟩

theorem span_length (p : Char → Bool) (l : Str) :
    (l.span p).1.length + (l.span p).2.length = l.length := by
  rw [List.span_eq_take_drop]
  simp only
  rw [← List.length_append, List.takeWhile_append_dropWhile]

theorem quotedLoop_total (fuel : Nat) (line rest buf : Str)
    (h : line.length + rest.length < fuel) :
    ∃ q, quotedLoop fuel line rest buf = some q ∧
      q.within (line.length + rest.length) rest.length := by
  induction fuel generalizing line rest buf with
  | zero => exact absurd h (Nat.not_lt_zero _)
  | succ n ih =>
    have hsp := span_length (fun c => decide (c ≠ '"')) line
    rw [quotedLoop]
    split
    · next pre x line1 heq =>
      rw [heq] at hsp
      simp only [List.length_cons] at hsp
      split
      · next line2 =>
        simp only [List.length_cons] at hsp
        obtain ⟨q, hq, hw⟩ := ih line2 rest (buf ++ pre ++ ['"']) (by omega)
        refine ⟨q, hq, ?_⟩
        cases q <;> simp only [QuotedEnd.within] at hw ⊢ <;> omega
      · next line2 =>
        simp only [List.length_cons] at hsp
        exact ⟨_, rfl, by simp only [QuotedEnd.within]; omega⟩
      · split
        · exact ⟨_, rfl, by simp only [QuotedEnd.within]; omega⟩
        · exact ⟨_, rfl, by simp only [QuotedEnd.within]; omega⟩
    · next pre heq =>
      split
      · next hpos =>
        obtain ⟨h1, _⟩ := readLine_length rest
        obtain ⟨q, hq, hw⟩ := ih (readLine rest).1 (readLine rest).2.2 (buf ++ line) (by omega)
        refine ⟨q, hq, ?_⟩
        cases q <;> simp only [QuotedEnd.within] at hw ⊢ <;> omega
      · exact ⟨_, rfl, by simp only [QuotedEnd.within]; omega⟩

theorem dropWhile_length_le (p : Char → Bool) (l : Str) : (l.dropWhile p).length ≤ l.length := by
  induction l with
  | nil => exact Nat.le_refl _
  | cons a t ih =>
    rw [List.dropWhile_cons]
    split
    · simp only [List.length_cons]; omega
    · exact Nat.le_refl _

theorem parseFieldLoop_total (fuel : Nat) (line0 rest : Str) (fields : List Str)
    (h : line0.length + rest.length < fuel) :
    ∃ res, parseFieldLoop fuel line0 rest fields = some res ∧
      res.2.2.length ≤ rest.length := by
  induction fuel generalizing line0 rest fields with
  | zero => exact absurd h (Nat.not_lt_zero _)
  | succ n ih =>
    have hd := dropWhile_length_le isSpace line0
    by_cases hq : (line0.dropWhile isSpace).head? = some '"'
    · rw [parseFieldLoop]
      split
      · next line1 heq =>
        rw [heq] at hd
        simp only [List.length_cons] at hd
        obtain ⟨q, hq, hw⟩ := quotedLoop_total (line1.length + rest.length + 1) line1 rest []
          (Nat.lt_succ_self _)
        rw [hq]
        cases q with
        | nextField f l r =>
          simp only [QuotedEnd.within] at hw
          obtain ⟨res, hres, hb⟩ := ih l r (fields ++ [f]) (by omega)
          exact ⟨res, hres, by omega⟩
        | endRecord f r =>
          simp only [QuotedEnd.within] at hw
          exact ⟨_, rfl, hw⟩
        | errQuote r =>
          simp only [QuotedEnd.within] at hw
          exact ⟨_, rfl, hw⟩
      · next hno =>
        cases hD : line0.dropWhile isSpace with
        | nil => rw [hD] at hq; cases hq
        | cons a u =>
          rw [hD] at hq
          simp only [List.head?_cons, Option.some.injEq] at hq
          subst hq
          exact absurd hD (hno u)
    · rw [parseFieldLoop_unquoted n line0 rest fields hq]
      have hsp := span_length (fun c => decide (c ≠ ',')) (line0.dropWhile isSpace)
      simp only
      generalize (if (List.span (fun c => decide (c ≠ ',')) (line0.dropWhile isSpace)).2.isEmpty
        then _ else _) = field
      by_cases hm : '"' ∈ field
      · rw [if_pos hm]
        exact ⟨_, rfl, Nat.le_refl _⟩
      · rw [if_neg hm]
        cases hpost : (List.span (fun c => decide (c ≠ ',')) (line0.dropWhile isSpace)).2 with
        | nil => exact ⟨_, rfl, Nat.le_refl _⟩
        | cons x l =>
          rw [hpost] at hsp
          simp only [List.length_cons] at hsp
          exact ih l rest _ (by omega)

theorem scanRecord_total (inp : Str) :
    ∃ r, scanRecord inp = some r ∧
      ∀ fields err rest, r = some (fields, err, rest) → rest.length < inp.length := by
  obtain ⟨r, hr, hb⟩ := skipEmptyLines_total (inp.length + 1) inp (Nat.lt_succ_self _)
  unfold scanRecord
  rw [hr]
  cases r with
  | none => exact ⟨none, rfl, fun _ _ _ e => by cases e⟩
  | some lr =>
    obtain ⟨line, rest⟩ := lr
    obtain ⟨b1, b2⟩ := hb line rest rfl
    obtain ⟨res, hres, hlen⟩ := parseFieldLoop_total (line.length + rest.length + 1) line rest []
      (Nat.lt_succ_self _)
    simp only [hres, Option.map_some']
    refine ⟨_, rfl, fun fields err rest1 e => ?_⟩
    simp only [Option.some.injEq] at e
    rw [e] at hlen
    simp only at hlen
    omega

theorem rowsLoop_total (fuel : Nat) (inp : Str) (h : inp.length < fuel) :
    ∃ rs, rowsLoop fuel inp = some rs := by
  induction fuel generalizing inp with
  | zero => exact absurd h (Nat.not_lt_zero _)
  | succ n ih =>
    obtain ⟨r, hr, hb⟩ := scanRecord_total inp
    unfold rowsLoop
    rw [hr]
    cases r with
    | none => exact ⟨[], rfl⟩
    | some t =>
      obtain ⟨fields, err, rest⟩ := t
      obtain ⟨rs, hrs⟩ := ih rest (by have := hb fields err rest rfl; omega)
      exact ⟨(fields, err) :: rs, by simp [hrs]⟩

theorem rows_total (inp : Str) : ∃ rs, rows inp = some rs :=
  rowsLoop_total _ inp (Nat.lt_succ_self _)

theorem ReadAll_total (inp : Str) : ∃ res, (NewReader inp).ReadAll = some res := by
  obtain ⟨rs, hrs⟩ := rows_total inp
  exact ⟨_, readAll_eq_rows inp rs hrs⟩

theorem parseProc_total (out : Str) : ∃ procMap, parseProc out = some procMap := by
  obtain ⟨rs, hrs⟩ := rows_total out
  exact ⟨_, parseProc_eq_rows out rs hrs⟩

theorem queryGPU_total (pf : Str → Float64) (env : GPUEnv) :
    ∃ res, queryGPU pf env = some res := by
  unfold queryGPU
  split
  · exact ⟨_, rfl⟩
  · obtain ⟨⟨driver, cuda⟩, hv⟩ := parseVersion_isSome env.verOut
    obtain ⟨procMap, hp⟩ := parseProc_total env.procOut
    obtain ⟨ra, hra⟩ := ReadAll_total env.mainOut.1
    rw [hv]
    simp only
    cases env.mainOut.2 with
    | some err => exact ⟨_, rfl⟩
    | none =>
      simp only [hp, hra]
      cases ra with
      | error e => exact ⟨_, rfl⟩
      | ok records => exact ⟨_, rfl⟩

/-! ## Claims on the numeric columns, the failed query and the single row -/

/-- C4, as the claim states it, fails: on a decimal integer outside the range of
`int`, and on a text that is no decimal integer but begins with digits that overflow 64
bits, the conversion fails and `atoi` returns the largest `int`, not 0 (the smallest one
after a minus sign); a device row with such a temperature column gets that value. -/
theorem atoi_failure_counterexample :
    (Atoi (TrimSpace " 9223372036854775808".toList)).2 = some .ErrRange ∧
    atoi " 9223372036854775808".toList = 9223372036854775807 ∧
    (Atoi (TrimSpace "99999999999999999999x".toList)).2 = some .ErrRange ∧
    atoi "99999999999999999999x".toList = 9223372036854775807 ∧
    atoi "-9223372036854775809".toList = -9223372036854775808 ∧
    (gpuRow noFloat [] [] []
      ["0".toList, "GPU-abc123".toList, "Tesla T4".toList, "9223372036854775808".toList,
       "25.10".toList, "70.00".toList, "16384".toList, "1024".toList, "15360".toList,
       "5".toList]).Temp = 9223372036854775807 := by
  decide

/-- C9, as the claim states it, fails: in a pass where the tool is found and the
device query fails, `queryGPU` returns that error and no device list, yet `collect`
returns a snapshot (its GPU list nil) and no error. -/
theorem collect_gpu_error_counterexample :
    queryGPU noFloat failedQueryEnv.gpu = some (none, some (.external 1)) ∧
    ∃ snap, collect noFloat failedQueryEnv = some (some snap, none) ∧ snap.GPU = none :=
  ⟨rfl, _, rfl, rfl⟩

theorem joinRow_ne_nil (fields : List Str) (h : 2 ≤ fields.length) : joinRow fields ≠ [] := by
  cases fields with
  | nil => simp at h
  | cons f more =>
    cases more with
    | nil => simp at h
    | cons g more1 => simp [joinRow]

/-- C10. The device row of the specification, alone and with an empty process
payload, gives exactly one record: index 0, UUID `GPU-abc123`, name `Tesla T4`,
temperature 42, memory 16384/1024/15360, utilization 5, a process list without element
(the nil slice, of length 0).  In general a payload of one row of 10 plain fields, each
after the first written after a space, gives exactly one record, whose members are taken
from the fields by position, the integer ones by `atoi`; and `atoi` of a text of decimal
digits (or a minus sign and digits) between white space is the number the digits write,
when it fits an `int`. -/
theorem queryGPU_single_row (pf : Str → Float64) (ver : Str) (fields : List Str)
    (hlen : fields.length = 10) (hpl : ∀ f ∈ fields, plainField f = true) :
    queryGPU pf (gpuEnvOf [] specDeviceRow []) =
      some (some [{ Index := 0, UUID := "GPU-abc123".toList, Name := "Tesla T4".toList,
                    Temp := 42, PowerDrawW := pf "25.10".toList,
                    PowerLimitW := pf "70.00".toList, MemTotalMB := 16384,
                    MemUsedMB := 1024, MemFreeMB := 15360, UtilPct := 5,
                    Processes := none, Driver := [], Cuda := [] }], none) ∧
    (∃ driver cuda, parseVersion ver = some (driver, cuda) ∧
      queryGPU pf (gpuEnvOf ver (joinRow fields) []) =
        some (some [{ Index := atoi (fields.getD 0 []), UUID := TrimSpace (fields.getD 1 []),
                      Name := fields.getD 2 [], Temp := atoi (fields.getD 3 []),
                      PowerDrawW := pf (TrimSpace (fields.getD 4 [])),
                      PowerLimitW := pf (TrimSpace (fields.getD 5 [])),
                      MemTotalMB := atoi (fields.getD 6 []),
                      MemUsedMB := atoi (fields.getD 7 []),
                      MemFreeMB := atoi (fields.getD 8 []),
                      UtilPct := atoi (fields.getD 9 []),
                      Processes := none, Driver := driver, Cuda := cuda }], none)) ∧
    (∀ ws t ws1 : Str, (∀ c ∈ ws, isSpace c = true) → (∀ c ∈ ws1, isSpace c = true) →
      t ≠ [] → (∀ c ∈ t, isDigit c = true) →
      (decimalValue t < 2 ^ 63 → atoi (ws ++ t ++ ws1) = (decimalValue t : Int)) ∧
      (decimalValue t ≤ 2 ^ 63 → atoi (ws ++ '-' :: t ++ ws1) = -(decimalValue t : Int))) := by
  refine ⟨rfl, ?_, ?_⟩
  · have hj : joinRow fields ≠ [] := joinRow_ne_nil fields (by omega)
    have hrows := rows_single_row fields hj hpl
    obtain ⟨driver, cuda, hv, hq⟩ := queryGPU_of_rows pf (gpuEnvOf ver (joinRow fields) [])
      [(fields, none)] [] rfl rfl hrows rfl
    refine ⟨driver, cuda, hv, ?_⟩
    rw [hq]
    have hc : checkFieldCount 0 fields none = (none, (fields.length : Int)) := by
      simp [checkFieldCount]
    simp only [readAllRows, hc, procRows, List.nil_append, gpuLoop, hlen]
    rfl
  · intro ws t ws1 hws hws1 hne hd
    exact ⟨fun hv => atoi_decimal ws t ws1 hws hws1 hne hd hv,
      fun hv => atoi_minus_decimal ws t ws1 hws hws1 hne hd hv⟩

/-- C10, at the fields of the device row of the specification, after a version
banner. -/
theorem queryGPU_single_row_witness :
    ∃ driver cuda,
      parseVersion "Driver version: 535.104.05\nCUDA Version: 12.2".toList
        = some (driver, cuda) ∧
      queryGPU noFloat
        (gpuEnvOf "Driver version: 535.104.05\nCUDA Version: 12.2".toList
          (joinRow specDeviceFields) []) =
        some (some [{ Index := atoi (specDeviceFields.getD 0 []),
                      UUID := TrimSpace (specDeviceFields.getD 1 []),
                      Name := specDeviceFields.getD 2 [],
                      Temp := atoi (specDeviceFields.getD 3 []),
                      PowerDrawW := noFloat (TrimSpace (specDeviceFields.getD 4 [])),
                      PowerLimitW := noFloat (TrimSpace (specDeviceFields.getD 5 [])),
                      MemTotalMB := atoi (specDeviceFields.getD 6 []),
                      MemUsedMB := atoi (specDeviceFields.getD 7 []),
                      MemFreeMB := atoi (specDeviceFields.getD 8 []),
                      UtilPct := atoi (specDeviceFields.getD 9 []),
                      Processes := none, Driver := driver, Cuda := cuda }], none) :=
  (queryGPU_single_row noFloat "Driver version: 535.104.05\nCUDA Version: 12.2".toList
    specDeviceFields (by decide) (by decide)).2.1

/-! ## Lemmas: `strconv.Atoi` by the parts of the text

A text is a sign or none, then its longest run of decimal digits, then a tail that does
not begin with a digit. -/

theorem parseUintLoop_digits_append (ds tail : Str) (n : Nat) (hn : n < 2 ^ 64)
    (hd : ∀ c ∈ ds, isDigit c = true) :
    parseUintLoop (ds ++ tail) n =
      if ds.foldl (fun n c => n * 10 + (c.toNat - 0x30)) n < 2 ^ 64 then
        parseUintLoop tail (ds.foldl (fun n c => n * 10 + (c.toNat - 0x30)) n)
      else (2 ^ 64 - 1, some .ErrRange) := by
  induction ds generalizing n with
  | nil =>
    simp only [List.nil_append, List.foldl_nil]
    rw [if_pos hn]
  | cons c ds ih =>
    have hb := isDigit_bounds c (hd c (List.mem_cons_self _ _))
    have hd1 : ∀ x ∈ ds, isDigit x = true := fun x hx => hd x (List.mem_cons_of_mem _ hx)
    have hge := foldl_decimal_ge ds (n * 10 + (c.toNat - 0x30))
    simp only [List.cons_append, List.foldl_cons]
    rw [parseUintLoop, if_pos hb]
    simp only
    by_cases h1 : n ≥ (2 ^ 64 - 1) / 10 + 1
    · rw [if_pos h1, if_neg (by omega)]
    · rw [if_neg h1]
      have h2 : n * 10 % 2 ^ 64 = n * 10 := Nat.mod_eq_of_lt (by omega)
      rw [h2]
      by_cases h3 : n * 10 + (c.toNat - 0x30) < 2 ^ 64
      · have h4 : (n * 10 + (c.toNat - 0x30)) % 2 ^ 64 = n * 10 + (c.toNat - 0x30) :=
          Nat.mod_eq_of_lt h3
        rw [h4, if_neg (by omega)]
        exact ih _ h3 hd1
      · have h4 : (n * 10 + (c.toNat - 0x30)) % 2 ^ 64 = n * 10 + (c.toNat - 0x30) - 2 ^ 64 := by
          rw [Nat.mod_eq_sub_mod (by omega)]
          exact Nat.mod_eq_of_lt (by omega)
        rw [h4, if_pos (Or.inl (by omega)), if_neg (by omega)]

theorem parseUintLoop_tail (tail : Str) (n : Nat) (ht : startsWithDigit tail = false) :
    parseUintLoop tail n = if tail = [] then (n, none) else (0, some .ErrSyntax) := by
  cases tail with
  | nil => rfl
  | cons c u =>
    have hc : ¬ (0x30 ≤ c.toNat ∧ c.toNat ≤ 0x39) := by
      simpa [startsWithDigit, isDigit] using ht
    rw [parseUintLoop, if_neg hc]
    simp

theorem ParseUint_parts (ds tail : Str) (hd : ∀ c ∈ ds, isDigit c = true)
    (ht : startsWithDigit tail = false) :
    ParseUint (ds ++ tail) =
      if 2 ^ 64 ≤ decimalValue ds then (2 ^ 64 - 1, some .ErrRange)
      else if ds = [] ∨ tail ≠ [] then (0, some .ErrSyntax)
      else (decimalValue ds, none) := by
  unfold ParseUint
  by_cases he : (ds ++ tail).isEmpty = true
  · have e : ds ++ tail = [] := List.isEmpty_iff.mp he
    obtain ⟨e1, e2⟩ := List.append_eq_nil.mp e
    subst e1 e2
    simp [decimalValue]
  · rw [if_neg he, parseUintLoop_digits_append ds tail 0 (by omega) hd, parseUintLoop_tail _ _ ht]
    have hne : ¬ (ds = [] ∧ tail = []) := by
      intro h
      apply he
      rw [h.1, h.2]
      rfl
    unfold decimalValue
    by_cases hv : 2 ^ 64 ≤ ds.foldl (fun n c => n * 10 + (c.toNat - 0x30)) 0
    · rw [if_neg (by omega), if_pos hv]
    · rw [if_pos (by omega), if_neg hv]
      by_cases htl : tail = []
      · have hds : ds ≠ [] := fun h => hne ⟨h, htl⟩
        rw [if_pos htl, if_neg (by simp [htl, hds])]
      · rw [if_neg htl, if_pos (Or.inr htl)]

theorem ParseInt_of_body (t body : Str) (neg : Bool) (un : Nat) (e : Option NumError)
    (h : (t = '-' :: body ∧ neg = true) ∨ (t = '+' :: body ∧ neg = false) ∨
      (t = body ∧ neg = false ∧ startsWithSign body = false))
    (hu : ParseUint body = (un, e)) :
    ParseInt t =
      if e = some .ErrSyntax then (0, some .ErrSyntax)
      else if neg = false ∧ un ≥ 2 ^ 63 then (2 ^ 63 - 1, some .ErrRange)
      else if neg = true ∧ un > 2 ^ 63 then (-(2 ^ 63), some .ErrRange)
      else (if neg = true then -(un : Int) else (un : Int), none) := by
  have key : ∀ (c : Char) (u : Str), t = c :: u →
      (if c = '+' ∨ c = '-' then u else c :: u) = body → (c = '-' ↔ neg = true) →
      ParseInt t =
        if e = some .ErrSyntax then (0, some .ErrSyntax)
        else if neg = false ∧ un ≥ 2 ^ 63 then (2 ^ 63 - 1, some .ErrRange)
        else if neg = true ∧ un > 2 ^ 63 then (-(2 ^ 63), some .ErrRange)
        else (if neg = true then -(un : Int) else (un : Int), none) := by
    intro c u htc hbody hneg
    subst htc
    unfold ParseInt
    simp only [hbody, hu]
    cases e with
    | none =>
      cases neg with
      | true =>
        have hc : c = '-' := hneg.mpr rfl
        simp [hc, intSize]
      | false =>
        have hc : ¬ c = '-' := fun h => by simpa using hneg.mp h
        simp [hc, intSize]
    | some k =>
      cases k with
      | ErrSyntax => simp
      | ErrRange =>
        cases neg with
        | true =>
          have hc : c = '-' := hneg.mpr rfl
          simp [hc, intSize]
        | false =>
          have hc : ¬ c = '-' := fun h => by simpa using hneg.mp h
          simp [hc, intSize]
  rcases h with ⟨ht, hn⟩ | ⟨ht, hn⟩ | ⟨ht, hn, hs⟩
  · exact key '-' body ht (by simp) (by simp [hn])
  · exact key '+' body ht (by simp) (by simp [hn])
  · subst ht
    cases t with
    | nil =>
      have : e = some .ErrSyntax := by
        have h0 : ParseUint [] = (0, some .ErrSyntax) := rfl
        rw [h0] at hu
        exact (congrArg Prod.snd hu).symm
      rw [this]
      rfl
    | cons c u =>
      have hc : c ≠ '-' ∧ c ≠ '+' := by
        simpa [startsWithSign] using hs
      exact key c u rfl (by simp [hc.1, hc.2]) (by simp [hc.1, hn])

theorem digits_decomposition (b : Str) :
    b = b.takeWhile isDigit ++ b.dropWhile isDigit ∧
    (∀ c ∈ b.takeWhile isDigit, isDigit c = true) ∧
    startsWithDigit (b.dropWhile isDigit) = false := by
  refine ⟨(List.takeWhile_append_dropWhile isDigit b).symm, ?_, ?_⟩
  · intro c hc
    exact List.mem_takeWhile_imp hc
  · induction b with
    | nil => rfl
    | cons a t ih =>
      rw [List.dropWhile_cons]
      by_cases ha : isDigit a = true
      · rw [if_pos ha]; exact ih
      · rw [if_neg ha]
        simpa [startsWithDigit] using ha

theorem atoiFastLoop_parts (ds tail : Str) (n : Nat) (hd : ∀ c ∈ ds, isDigit c = true)
    (ht : startsWithDigit tail = false) :
    atoiFastLoop (ds ++ tail) (n : Int) =
      if tail = [] then
        some ((ds.foldl (fun n c => n * 10 + (c.toNat - 0x30)) n : Nat) : Int)
      else none := by
  induction ds generalizing n with
  | nil =>
    cases tail with
    | nil => rfl
    | cons c u =>
      have hc : ¬ (0x30 ≤ c.toNat ∧ c.toNat ≤ 0x39) := by
        simpa [startsWithDigit, isDigit] using ht
      simp only [List.nil_append]
      rw [atoiFastLoop, if_neg hc]
      simp
  | cons c ds ih =>
    have hb := isDigit_bounds c (hd c (List.mem_cons_self _ _))
    simp only [List.cons_append, List.foldl_cons]
    rw [atoiFastLoop, if_pos hb]
    rw [← ih (n * 10 + (c.toNat - 0x30)) (fun x hx => hd x (List.mem_cons_of_mem _ hx))]
    congr 1

theorem foldl_decimal_lt (ds : Str) (n : Nat) (hd : ∀ c ∈ ds, isDigit c = true) :
    ds.foldl (fun n c => n * 10 + (c.toNat - 0x30)) n < (n + 1) * 10 ^ ds.length := by
  induction ds generalizing n with
  | nil => simp
  | cons c ds ih =>
    have hb := isDigit_bounds c (hd c (List.mem_cons_self _ _))
    simp only [List.foldl_cons, List.length_cons]
    have h1 := ih (n * 10 + (c.toNat - 0x30)) (fun x hx => hd x (List.mem_cons_of_mem _ hx))
    have h2 : n * 10 + (c.toNat - 0x30) + 1 ≤ (n + 1) * 10 := by omega
    calc ds.foldl (fun n c => n * 10 + (c.toNat - 0x30)) (n * 10 + (c.toNat - 0x30))
        < (n * 10 + (c.toNat - 0x30) + 1) * 10 ^ ds.length := h1
      _ ≤ ((n + 1) * 10) * 10 ^ ds.length := Nat.mul_le_mul_right _ h2
      _ = (n + 1) * 10 ^ (ds.length + 1) := by rw [Nat.pow_succ]; ring

theorem decimalValue_small (ds : Str) (hd : ∀ c ∈ ds, isDigit c = true)
    (hl : ds.length ≤ 18) : decimalValue ds < 10 ^ 18 := by
  have h := foldl_decimal_lt ds 0 hd
  simp only [Nat.zero_add, Nat.one_mul] at h
  exact Nat.lt_of_lt_of_le h (Nat.pow_le_pow_right (by decide) hl)

theorem length_le_byteLen (s : Str) : s.length ≤ byteLen s := by
  induction s with
  | nil => exact Nat.le_refl _
  | cons c t ih =>
    have h1 : 1 ≤ utf8Len c := by
      unfold utf8Len
      split
      · exact Nat.le_refl _
      · split
        · decide
        · split <;> decide
    simp only [byteLen, List.map_cons, List.sum_cons, List.length_cons] at ih ⊢
    omega

theorem Atoi_eq_ParseInt (s : Str) : Atoi s = ParseInt s := by
  unfold Atoi
  simp only
  by_cases hfast : intSize = 64 ∧ 0 < byteLen s ∧ byteLen s < 19
  swap
  · rw [if_neg hfast]
  rw [if_pos hfast]
  cases s with
  | nil => rfl
  | cons c u =>
    simp only
    have hlen := length_le_byteLen (c :: u)
    have hblen : (if c = '-' ∨ c = '+' then u else c :: u).length ≤ 18 := by
      split <;> simp only [List.length_cons] at hlen ⊢ <;> omega
    have hbody : (c :: u = '-' :: (if c = '-' ∨ c = '+' then u else c :: u) ∧
          decide (c = '-') = true) ∨
        (c :: u = '+' :: (if c = '-' ∨ c = '+' then u else c :: u) ∧
          decide (c = '-') = false) ∨
        (c :: u = (if c = '-' ∨ c = '+' then u else c :: u) ∧ decide (c = '-') = false ∧
          startsWithSign (if c = '-' ∨ c = '+' then u else c :: u) = false) := by
      by_cases h1 : c = '-'
      · subst h1
        exact Or.inl ⟨by simp, by simp⟩
      · by_cases h2 : c = '+'
        · subst h2
          exact Or.inr (Or.inl ⟨by simp, by decide⟩)
        · refine Or.inr (Or.inr ⟨by simp [h1, h2], by simp [h1], ?_⟩)
          simp [h1, h2, startsWithSign]
    generalize (if c = '-' ∨ c = '+' then u else c :: u) = body at hblen hbody ⊢
    obtain ⟨hdec, hd, ht⟩ := digits_decomposition body
    have hdl : (body.takeWhile isDigit).length ≤ 18 := by
      have := congrArg List.length hdec
      simp only [List.length_append] at this
      omega
    have hv := decimalValue_small _ hd hdl
    have hu := ParseUint_parts _ _ hd ht
    rw [← hdec, if_neg (by omega)] at hu
    have hfl := atoiFastLoop_parts (body.takeWhile isDigit) (body.dropWhile isDigit) 0 hd ht
    rw [← hdec] at hfl
    simp only [Nat.cast_zero] at hfl
    by_cases hsyn : body.takeWhile isDigit = [] ∨ body.dropWhile isDigit ≠ []
    · rw [if_pos hsyn] at hu
      rw [ParseInt_of_body (c :: u) body (decide (c = '-')) _ _ hbody hu, if_pos rfl]
      by_cases h1 : (c = '-' ∨ c = '+') ∧ body.length < 1
      · rw [if_pos h1]
      · rw [if_neg h1]
        by_cases htl : body.dropWhile isDigit = []
        · exfalso
          rcases hsyn with h | h
          · have hb0 : body = [] := by rw [hdec, h, htl]; rfl
            rcases hbody with ⟨hb, _⟩ | ⟨hb, _⟩ | ⟨hb, _, _⟩
            · exact h1 ⟨Or.inl (List.cons.inj hb).1, by rw [hb0]; decide⟩
            · exact h1 ⟨Or.inr (List.cons.inj hb).1, by rw [hb0]; decide⟩
            · rw [hb0] at hb; cases hb
          · exact h htl
        · rw [hfl, if_neg htl]
    · have hne : body.takeWhile isDigit ≠ [] := fun h => hsyn (Or.inl h)
      have htl : body.dropWhile isDigit = [] := by
        by_contra h
        exact hsyn (Or.inr h)
      rw [if_neg hsyn] at hu
      rw [ParseInt_of_body (c :: u) body (decide (c = '-')) _ _ hbody hu]
      have hpos : ¬ (body.length < 1) := by
        intro h
        have hb0 : body = [] := List.length_eq_zero.mp (by omega)
        rw [hb0] at hne
        exact hne rfl
      have hfl2 : atoiFastLoop body 0
          = some ((decimalValue (body.takeWhile isDigit) : Nat) : Int) := by
        rw [hfl, if_pos htl]
        rfl
      have h18 : (10 : Nat) ^ 18 = 1000000000000000000 := by norm_num
      rw [h18] at hv
      have hv1 : ¬ (9223372036854775808 ≤ decimalValue (body.takeWhile isDigit)) := by omega
      have hv2 : ¬ (9223372036854775808 < decimalValue (body.takeWhile isDigit)) := by omega
      rw [if_neg (fun h => hpos h.2), hfl2]
      by_cases hc : c = '-'
      · simp [hc, hv2]
      · simp [hc, hv1]

theorem startsWithSign_digits (ds tail : Str) (hd : ∀ c ∈ ds, isDigit c = true)
    (hns : ds = [] → startsWithSign tail = false) : startsWithSign (ds ++ tail) = false := by
  cases ds with
  | nil => exact hns rfl
  | cons a u =>
    obtain ⟨h1, h2⟩ := isDigit_ne_sign a (hd a (List.mem_cons_self _ _))
    simp [startsWithSign, h1, h2]

theorem Atoi_parts (sg ds tail : Str) (hsg : sg = [] ∨ sg = ['-'] ∨ sg = ['+'])
    (hd : ∀ c ∈ ds, isDigit c = true) (ht : startsWithDigit tail = false)
    (hns : sg = [] → ds = [] → startsWithSign tail = false) :
    Atoi (sg ++ ds ++ tail) =
      if 2 ^ 64 ≤ decimalValue ds then
        (if sg = ['-'] then -(2 ^ 63) else 2 ^ 63 - 1, some .ErrRange)
      else if ds = [] ∨ tail ≠ [] then (0, some .ErrSyntax)
      else if sg = ['-'] then
        (if 2 ^ 63 < decimalValue ds then (-(2 ^ 63), some .ErrRange)
         else (-(decimalValue ds : Int), none))
      else
        (if 2 ^ 63 ≤ decimalValue ds then (2 ^ 63 - 1, some .ErrRange)
         else ((decimalValue ds : Int), none)) := by
  have hu := ParseUint_parts ds tail hd ht
  have hbody : (sg ++ ds ++ tail = '-' :: (ds ++ tail) ∧ decide (sg = ['-']) = true) ∨
      (sg ++ ds ++ tail = '+' :: (ds ++ tail) ∧ decide (sg = ['-']) = false) ∨
      (sg ++ ds ++ tail = ds ++ tail ∧ decide (sg = ['-']) = false ∧
        startsWithSign (ds ++ tail) = false) := by
    rcases hsg with h | h | h
    · subst h
      exact Or.inr (Or.inr ⟨rfl, by decide, startsWithSign_digits ds tail hd (hns rfl)⟩)
    · subst h
      exact Or.inl ⟨rfl, by decide⟩
    · subst h
      exact Or.inr (Or.inl ⟨rfl, by decide⟩)
  rw [Atoi_eq_ParseInt]
  by_cases hv : 2 ^ 64 ≤ decimalValue ds
  · rw [if_pos hv] at hu
    rw [ParseInt_of_body _ _ _ _ _ hbody hu, if_pos hv]
    by_cases hm : sg = ['-']
    · simp [hm]
    · simp [hm]
  · rw [if_neg hv] at hu
    rw [if_neg hv]
    by_cases hsyn : ds = [] ∨ tail ≠ []
    · rw [if_pos hsyn] at hu
      rw [ParseInt_of_body _ _ _ _ _ hbody hu, if_pos hsyn]
      simp
    · rw [if_neg hsyn] at hu
      rw [ParseInt_of_body _ _ _ _ _ hbody hu, if_neg hsyn]
      by_cases hm : sg = ['-']
      · rw [if_pos hm]
        by_cases h63 : 2 ^ 63 < decimalValue ds
        · simp [hm, h63]
        · simp [hm, h63]
      · rw [if_neg hm]
        by_cases h63 : 2 ^ 63 ≤ decimalValue ds
        · simp [hm, h63]
        · simp [hm, h63]

theorem text_parts_exist (t : Str) :
    ∃ sg ds tail : Str, (sg = [] ∨ sg = ['-'] ∨ sg = ['+']) ∧
      (∀ c ∈ ds, isDigit c = true) ∧ startsWithDigit tail = false ∧
      (sg = [] → ds = [] → startsWithSign tail = false) ∧ t = sg ++ ds ++ tail := by
  cases t with
  | nil => exact ⟨[], [], [], Or.inl rfl, by simp, rfl, fun _ _ => rfl, rfl⟩
  | cons c u =>
    by_cases hs : c = '-' ∨ c = '+'
    · obtain ⟨hdec, hd, ht⟩ := digits_decomposition u
      refine ⟨[c], u.takeWhile isDigit, u.dropWhile isDigit, ?_, hd, ht, ?_, ?_⟩
      · rcases hs with h | h
        · exact Or.inr (Or.inl (by rw [h]))
        · exact Or.inr (Or.inr (by rw [h]))
      · intro h; cases h
      · simp only [List.singleton_append, List.cons_append, List.nil_append]
        rw [← hdec]
    · obtain ⟨hdec, hd, ht⟩ := digits_decomposition (c :: u)
      refine ⟨[], (c :: u).takeWhile isDigit, (c :: u).dropWhile isDigit, Or.inl rfl, hd, ht,
        ?_, ?_⟩
      · intro _ h0
        have e : (c :: u).dropWhile isDigit = c :: u := by
          have := hdec
          rw [h0, List.nil_append] at this
          exact this.symm
        rw [e]
        have h1 : c ≠ '-' := fun h => hs (Or.inl h)
        have h2 : c ≠ '+' := fun h => hs (Or.inr h)
        simp [startsWithSign, h1, h2]
      · rw [List.nil_append]
        exact hdec

/-! ## Claims on the failed conversion and on the failed device query -/

theorem device_row_emitted (pf : Str → Float64) (env : GPUEnv) (records : List (List Str))
    (rec : List Str) (hlook : env.lookPath = none) (hrun : env.mainOut.2 = none)
    (hread : (NewReader env.mainOut.1).ReadAll = some (.ok records))
    (hrec : rec ∈ records) (hlen : rec.length = 10) :
    ∃ gpus g, queryGPU pf env = some (gpus, none) ∧ g ∈ sliceElems gpus ∧
      g.UUID = TrimSpace (rec.getD 1 []) ∧ g.Name = rec.getD 2 [] ∧
      g.Index = atoi (rec.getD 0 []) ∧ g.Temp = atoi (rec.getD 3 []) ∧
      g.MemTotalMB = atoi (rec.getD 6 []) ∧ g.MemUsedMB = atoi (rec.getD 7 []) ∧
      g.MemFreeMB = atoi (rec.getD 8 []) ∧ g.UtilPct = atoi (rec.getD 9 []) := by
  obtain ⟨⟨driver, cuda⟩, hv⟩ := parseVersion_isSome env.verOut
  obtain ⟨procMap, hp⟩ := parseProc_total env.procOut
  have hq : queryGPU pf env
      = some (gpuLoop pf driver cuda procMap records none, none) := by
    unfold queryGPU
    rw [hlook, hv, hrun, hp, hread]
    simp
  obtain ⟨h0, h3, h6, h7, h8, h9⟩ := gpuRow_ints pf driver cuda procMap rec
  have hname : (gpuRow pf driver cuda procMap rec).Name = rec.getD 2 [] := by
    simp only [gpuRow]
    split <;> rfl
  exact ⟨_, gpuRow pf driver cuda procMap rec, hq,
    mem_sliceElems_gpuLoop pf driver cuda procMap records none rec hrec hlen,
    gpuRow_UUID pf driver cuda procMap rec, hname, h0, h3, h6, h7, h8, h9⟩

theorem process_row_emitted (out : Str) (prows : List (List Str × Option CsvError))
    (r : List Str × Option CsvError) (hrows : rows out = some prows)
    (hfirst : ∀ r0, prows.head? = some r0 → r0.2 = none ∧ r0.1.length = 5)
    (hr : r ∈ prows) (hclean : r.2 = none ∧ r.1.length = 5) :
    ∃ table p, parseProc out = some table ∧
      p ∈ sliceElems ((mapGet table (TrimSpace (r.1.getD 0 []))).getD none) ∧
      p.GPUUUID = TrimSpace (r.1.getD 0 []) ∧ p.Name = TrimSpace (r.1.getD 3 []) ∧
      p.PID = atoi (r.1.getD 2 []) ∧ p.UsedMB = atoi (r.1.getD 4 []) := by
  cases prows with
  | nil => cases hr
  | cons r0 rs =>
    have h0 := hfirst r0 rfl
    have htab := parseProc_eq_rows out _ hrows
    rw [procRows_first_clean r0 rs h0] at htab
    refine ⟨_, procOfRecord r.1, htab, ?_, rfl, rfl, rfl, rfl⟩
    apply mem_table_of_mem
    apply List.mem_map_of_mem
    exact List.mem_filter.mpr ⟨hr, by simpa using hclean⟩

/-- C4, amended. Write the trimmed text of a field as a sign or none (`sg`), its
longest run of decimal digits (`ds`), and a tail that does not begin with a digit; every
text is of this form.  Then:
* when the text is no decimal integer (no digit, or a non-empty tail) and the digits do
  not overflow 64 bits, the conversion fails with a syntax error and `atoi` returns 0;
* when the digits overflow 64 bits, whatever follows them, the conversion fails with a
  range error and `atoi` returns the nearest bound of `int`: `-2^63` after a minus sign,
  `2^63 - 1` otherwise;
* when the text is a decimal integer outside the range of `int`, the conversion fails
  with a range error and `atoi` returns that same nearest bound, not 0;
* when the text is a decimal integer of the range of `int`, the conversion succeeds and
  `atoi` returns its value.
Either way the row is emitted: every record of 10 fields that `ReadAll` returns gives a
device record whose integer members are the `atoi` of its columns, and every clean row of
5 fields of a process payload whose first row is one gives a process record, in the table
under its UUID, whose integer members are the `atoi` of its columns. -/
theorem atoi_failure_value (pf : Str → Float64) (env : GPUEnv) (records : List (List Str))
    (rec : List Str) (out : Str) (prows : List (List Str × Option CsvError))
    (r : List Str × Option CsvError) (s sg ds tail : Str)
    (hlook : env.lookPath = none) (hrun : env.mainOut.2 = none)
    (hread : (NewReader env.mainOut.1).ReadAll = some (.ok records))
    (hrec : rec ∈ records) (hlen : rec.length = 10)
    (hrows : rows out = some prows)
    (hfirst : ∀ r0, prows.head? = some r0 → r0.2 = none ∧ r0.1.length = 5)
    (hr : r ∈ prows) (hclean : r.2 = none ∧ r.1.length = 5)
    (htext : TrimSpace s = sg ++ ds ++ tail)
    (hsg : sg = [] ∨ sg = ['-'] ∨ sg = ['+'])
    (hds : ∀ c ∈ ds, isDigit c = true)
    (htail : startsWithDigit tail = false)
    (hns : sg = [] → ds = [] → startsWithSign tail = false) :
    ((ds = [] ∨ tail ≠ []) → decimalValue ds < 2 ^ 64 →
      (Atoi (TrimSpace s)).2 = some .ErrSyntax ∧ atoi s = 0) ∧
    (2 ^ 64 ≤ decimalValue ds →
      (Atoi (TrimSpace s)).2 = some .ErrRange ∧
      atoi s = if sg = ['-'] then -(2 ^ 63) else 2 ^ 63 - 1) ∧
    (ds ≠ [] → tail = [] →
      (if sg = ['-'] then 2 ^ 63 < decimalValue ds else 2 ^ 63 ≤ decimalValue ds) →
      (Atoi (TrimSpace s)).2 = some .ErrRange ∧
      atoi s = if sg = ['-'] then -(2 ^ 63) else 2 ^ 63 - 1) ∧
    (ds ≠ [] → tail = [] →
      (if sg = ['-'] then decimalValue ds ≤ 2 ^ 63 else decimalValue ds < 2 ^ 63) →
      (Atoi (TrimSpace s)).2 = none ∧
      atoi s = if sg = ['-'] then -(decimalValue ds : Int) else (decimalValue ds : Int)) ∧
    (∀ t : Str, ∃ sg1 ds1 tail1 : Str, (sg1 = [] ∨ sg1 = ['-'] ∨ sg1 = ['+']) ∧
      (∀ c ∈ ds1, isDigit c = true) ∧ startsWithDigit tail1 = false ∧
      (sg1 = [] → ds1 = [] → startsWithSign tail1 = false) ∧ t = sg1 ++ ds1 ++ tail1) ∧
    (∃ gpus g, queryGPU pf env = some (gpus, none) ∧ g ∈ sliceElems gpus ∧
      g.UUID = TrimSpace (rec.getD 1 []) ∧ g.Name = rec.getD 2 [] ∧
      g.Index = atoi (rec.getD 0 []) ∧ g.Temp = atoi (rec.getD 3 []) ∧
      g.MemTotalMB = atoi (rec.getD 6 []) ∧ g.MemUsedMB = atoi (rec.getD 7 []) ∧
      g.MemFreeMB = atoi (rec.getD 8 []) ∧ g.UtilPct = atoi (rec.getD 9 [])) ∧
    (∃ table p, parseProc out = some table ∧
      p ∈ sliceElems ((mapGet table (TrimSpace (r.1.getD 0 []))).getD none) ∧
      p.GPUUUID = TrimSpace (r.1.getD 0 []) ∧ p.Name = TrimSpace (r.1.getD 3 []) ∧
      p.PID = atoi (r.1.getD 2 []) ∧ p.UsedMB = atoi (r.1.getD 4 [])) := by
  have hA := Atoi_parts sg ds tail hsg hds htail hns
  rw [← htext] at hA
  refine ⟨?_, ?_, ?_, ?_, text_parts_exist,
    device_row_emitted pf env records rec hlook hrun hread hrec hlen,
    process_row_emitted out prows r hrows hfirst hr hclean⟩
  · intro hsyn hv
    unfold atoi
    rw [hA, if_neg (by omega), if_pos hsyn]
    exact ⟨rfl, rfl⟩
  · intro hv
    unfold atoi
    rw [hA, if_pos hv]
    exact ⟨rfl, rfl⟩
  · intro hne htl hv
    unfold atoi
    rw [hA]
    have hsyn : ¬ (ds = [] ∨ tail ≠ []) := fun h => h.elim hne (fun h2 => h2 htl)
    by_cases h64 : 2 ^ 64 ≤ decimalValue ds
    · rw [if_pos h64]
      exact ⟨rfl, rfl⟩
    · rw [if_neg h64, if_neg hsyn]
      by_cases hm : sg = ['-']
      · simp only [if_pos hm] at hv ⊢
        rw [if_pos hv]
        exact ⟨rfl, rfl⟩
      · simp only [if_neg hm] at hv ⊢
        rw [if_pos hv]
        exact ⟨rfl, rfl⟩
  · intro hne htl hv
    unfold atoi
    rw [hA]
    have hsyn : ¬ (ds = [] ∨ tail ≠ []) := fun h => h.elim hne (fun h2 => h2 htl)
    have h64 : ¬ (2 ^ 64 ≤ decimalValue ds) := by
      split at hv <;> omega
    rw [if_neg h64, if_neg hsyn]
    by_cases hm : sg = ['-']
    · simp only [if_pos hm] at hv ⊢
      rw [if_neg (by omega)]
      exact ⟨rfl, rfl⟩
    · simp only [if_neg hm] at hv ⊢
      rw [if_neg (by omega)]
      exact ⟨rfl, rfl⟩

/-- C4, amended, at the text `N/A` (a syntax error, 0), at `2^63` written in decimal
after a space (a range error, the largest `int`), at a minus sign and twenty nines
followed by a letter (a range error, the smallest `int`), and at a device row and a
process row with an `N/A` column, which are both emitted. -/
theorem atoi_failure_value_witness :
    ((Atoi (TrimSpace "N/A".toList)).2 = some .ErrSyntax ∧ atoi "N/A".toList = 0) ∧
    ((Atoi (TrimSpace " 9223372036854775808".toList)).2 = some .ErrRange ∧
      atoi " 9223372036854775808".toList = 2 ^ 63 - 1) ∧
    ((Atoi (TrimSpace "-99999999999999999999x".toList)).2 = some .ErrRange ∧
      atoi "-99999999999999999999x".toList = -(2 ^ 63)) ∧
    (∃ gpus g, queryGPU noFloat (gpuEnvOf [] naDeviceRow []) = some (gpus, none) ∧
      g ∈ sliceElems gpus ∧
      g.UUID = TrimSpace (naDeviceFields.getD 1 []) ∧ g.Name = naDeviceFields.getD 2 [] ∧
      g.Index = atoi (naDeviceFields.getD 0 []) ∧ g.Temp = atoi (naDeviceFields.getD 3 []) ∧
      g.MemTotalMB = atoi (naDeviceFields.getD 6 []) ∧
      g.MemUsedMB = atoi (naDeviceFields.getD 7 []) ∧
      g.MemFreeMB = atoi (naDeviceFields.getD 8 []) ∧
      g.UtilPct = atoi (naDeviceFields.getD 9 [])) ∧
    (∃ table p, parseProc naProcOut = some table ∧
      p ∈ sliceElems ((mapGet table "GPU-abc123".toList).getD none) ∧
      p.GPUUUID = "GPU-abc123".toList ∧ p.Name = "Xorg".toList ∧
      p.PID = atoi "4243".toList ∧ p.UsedMB = atoi "N/A".toList) :=
  have key := fun (s sg ds tail : Str) =>
    atoi_failure_value noFloat (gpuEnvOf [] naDeviceRow []) [naDeviceFields]
      naDeviceFields naProcOut naProcRows
      (["GPU-abc123".toList, "Tesla T4".toList, "4243".toList, "Xorg".toList,
        "N/A".toList], none) s sg ds tail
      rfl rfl rfl (by decide) (by decide) (by decide) (by decide) (by decide) (by decide)
  have hA := key "N/A".toList [] [] "N/A".toList (by decide) (by decide) (by decide)
    (by decide) (by decide)
  have hB := key " 9223372036854775808".toList [] "9223372036854775808".toList []
    (by decide) (by decide) (by decide) (by decide) (by decide)
  have hC := key "-99999999999999999999x".toList ['-'] "99999999999999999999".toList
    "x".toList (by decide) (by decide) (by decide) (by decide) (by decide)
  ⟨hA.1 (by decide) (by decide), hB.2.2.1 (by decide) (by decide) (by decide),
    hC.2.1 (by decide), hA.2.2.2.2.2.1, hA.2.2.2.2.2.2⟩

/-- C9, amended. When the tool is found and the device query fails, `queryGPU`
returns that error and no device list; `collect` drops the error: when `host.Info` and
`cpu.Info` succeed (`cpu.Info` with at least one entry) and `load.Avg`,
`mem.VirtualMemory` and the `disk.Usage` calls give no nil pointer to read, it returns a
snapshot whose GPU list is nil, and no error.  In every pass the only errors `collect`
returns, with no snapshot, are the error of `host.Info` and the one it makes for
`cpu.Info`. -/
theorem collect_discards_gpu_error (pf : Str → Float64) (env : Env) (err : Error)
    (hInfo : InfoStat) (c0 : CpuStat) (cs : List CpuStat) (la : AvgStat)
    (vm : VirtualMemoryStat) (disks : Slice DiskInfo)
    (hlook : env.gpu.lookPath = none) (hrun : env.gpu.mainOut.2 = some err)
    (hhost : env.hostInfo = (some hInfo, none)) (hcpu : env.cpuInfo = (c0 :: cs, none))
    (hla : env.loadAvg = some la) (hvm : env.virtualMemory = some vm)
    (hdisk : diskLoop env.diskUsage env.partitions none = some disks) :
    queryGPU pf env.gpu = some (none, some err) ∧
    (∃ snap, collect pf env = some (some snap, none) ∧ snap.GPU = none ∧
      snap.Disk = disks ∧ snap.Uptime = hInfo.Uptime) ∧
    (∀ (env1 : Env) (res : Option HostInfo × Option Error),
      collect pf env1 = some res → res.2 ≠ none →
      res.1 = none ∧ (res.2 = env1.hostInfo.2 ∨ ∃ e, res.2 = some (.cpuInfo e))) := by
  obtain ⟨⟨driver, cuda⟩, hv⟩ := parseVersion_isSome env.gpu.verOut
  have hq : queryGPU pf env.gpu = some (none, some err) := by
    unfold queryGPU
    rw [hlook, hv, hrun]
    simp
  refine ⟨hq, ?_, ?_⟩
  · unfold collect
    rw [hhost, hcpu, hla, hvm, hdisk, hq]
    exact ⟨_, rfl, rfl, rfl, rfl⟩
  · intro env1 res hres hne
    unfold collect at hres
    rcases hh : env1.hostInfo with ⟨hi, he⟩
    rw [hh] at hres
    cases he with
    | some e =>
      simp only [Option.some.injEq] at hres
      subst hres
      exact ⟨rfl, Or.inl rfl⟩
    | none =>
      cases hi with
      | none => simp at hres
      | some hInfo1 =>
        rcases hc : env1.cpuInfo with ⟨cl, ce⟩
        rw [hc] at hres
        cases ce with
        | some e =>
          simp only [Option.some.injEq] at hres
          subst hres
          exact ⟨rfl, Or.inr ⟨_, rfl⟩⟩
        | none =>
          cases cl with
          | nil =>
            simp only [Option.some.injEq] at hres
            subst hres
            exact ⟨rfl, Or.inr ⟨_, rfl⟩⟩
          | cons c1 cs1 =>
            simp only at hres
            cases hl : env1.loadAvg with
            | none => rw [hl] at hres; simp at hres
            | some la1 =>
              rw [hl] at hres
              simp only at hres
              cases hm : env1.virtualMemory with
              | none => rw [hm] at hres; simp at hres
              | some vm1 =>
                rw [hm] at hres
                simp only at hres
                cases hd : diskLoop env1.diskUsage env1.partitions none with
                | none => rw [hd] at hres; simp at hres
                | some disks1 =>
                  rw [hd] at hres
                  simp only at hres
                  cases hg : queryGPU pf env1.gpu with
                  | none => rw [hg] at hres; simp at hres
                  | some g1 =>
                    rw [hg] at hres
                    simp only [Option.some.injEq] at hres
                    subst hres
                    exact absurd rfl hne

/-- C9, amended, at a pass whose device query fails with error 1. -/
theorem collect_discards_gpu_error_witness :
    queryGPU noFloat failedQueryEnv.gpu = some (none, some (.external 1)) ∧
    ∃ snap, collect noFloat failedQueryEnv = some (some snap, none) ∧ snap.GPU = none ∧
      snap.Disk = none ∧ snap.Uptime = 100 :=
  have h := collect_discards_gpu_error noFloat failedQueryEnv (.external 1)
    { Platform := "ubuntu".toList, PlatformFamily := "debian".toList,
      PlatformVersion := "22.04".toList, KernelVersion := "6.1".toList, Uptime := 100 }
    { ModelName := "cpu".toList, Cores := 4, Mhz := ⟨0⟩ } []
    { Load1 := ⟨0⟩, Load5 := ⟨0⟩, Load15 := ⟨0⟩ } { Total := 16, Used := 8, Free := 8 } none
    rfl rfl rfl rfl rfl rfl rfl
  ⟨h.1, h.2.1⟩

end GoHostinfo
